import Mathlib

/-!
# go-wget (`main.go`): a shallow embedding

The development follows the layout of `main.go`:

* `Float64`: the float64 arithmetic used by the progress computation of `downloadFile`
  (IEEE 754 binary64, round to nearest, ties to even, over the rationals);
* `downloadFile` and `rateLimitedReader.Read`: the streaming copy loop;
* `shouldReject`, `extractLinks`, `resolveURL`, `mirrorWebsite`: the shallow mirror;
* `traverse` (the closure of `convertLinksFunction`): the link rewriter;
* `main`: the dispatch of the command line.

Calls that leave the program (the HTTP client, the file system, the clock, the HTML parser,
`net/url`, `path/filepath`) are inputs of the model: every function takes the results those
calls return. Three library calls do not return on the arguments the program gives them, and
are modelled as such: `WaitN` of `golang.org/x/time/rate` on the nil context of
`rateLimitedReader.Read`, `ResolveReference` on the nil base of `resolveURL`, and the second
definition of the flag `mirror` in `main`.
Go `int` and `int64` values are integers reduced with `wrap64` (a 64-bit platform); URLs,
paths and attribute values are `String`s, the contents of files and of response bodies are
lists of bytes; paths are those of a Unix system.
-/

namespace GoWget

/-! ## float64 -/

/-- Nearest integer of a rational, a tie going to the even neighbour. -/
def roundHalfEven (x : ℚ) : ℤ :=
  if x - ⌊x⌋ < 1 / 2 then ⌊x⌋
  else if 1 / 2 < x - ⌊x⌋ then ⌊x⌋ + 1
  else if ⌊x⌋ % 2 = 0 then ⌊x⌋ else ⌊x⌋ + 1

/-- Exponent of the last place of the binary64 significand (53 bits) for a positive `x`;
subnormal numbers share the exponent `-1074`. -/
def ulpExp (x : ℚ) : ℤ := max (Int.log 2 x - 52) (-1074)

/-- Binary64 rounding of a positive rational, before the overflow test. -/
def roundPos (x : ℚ) : ℚ := (roundHalfEven (x / 2 ^ ulpExp x) : ℚ) * 2 ^ ulpExp x

/-- Binary64 rounding of a rational, before the overflow test. -/
def roundRat (x : ℚ) : ℚ :=
  if 0 < x then roundPos x else if x < 0 then -roundPos (-x) else 0

/-- A float64 value. The sign of a zero is not recorded: the only zero the program divides
by is `float64` of the integer `0` or of a zero duration, which is `+0`. -/
inductive Float64 where
  | fin (q : ℚ)
  | posInf
  | negInf
  | nan
  deriving DecidableEq

namespace Float64

/-- The float64 nearest to a rational; a magnitude that rounds to `2 ^ 1024` overflows. -/
def ofRat (x : ℚ) : Float64 :=
  if 2 ^ 1024 ≤ roundRat x then posInf
  else if roundRat x ≤ -2 ^ 1024 then negInf
  else fin (roundRat x)

/-- Conversion `float64(i)` of an integer. -/
def ofInt (i : ℤ) : Float64 := ofRat i

/-- Quotient `a / b`. -/
def div : Float64 → Float64 → Float64
  | nan, _ => nan
  | _, nan => nan
  | fin a, fin b =>
    if b = 0 then (if a = 0 then nan else if 0 < a then posInf else negInf)
    else ofRat (a / b)
  | fin _, posInf => fin 0
  | fin _, negInf => fin 0
  | posInf, fin b => if 0 ≤ b then posInf else negInf
  | negInf, fin b => if 0 ≤ b then negInf else posInf
  | posInf, posInf => nan
  | posInf, negInf => nan
  | negInf, posInf => nan
  | negInf, negInf => nan

/-- Product `a * b`. -/
def mul : Float64 → Float64 → Float64
  | nan, _ => nan
  | _, nan => nan
  | fin a, fin b => ofRat (a * b)
  | fin a, posInf => if a = 0 then nan else if 0 < a then posInf else negInf
  | fin a, negInf => if a = 0 then nan else if 0 < a then negInf else posInf
  | posInf, fin b => if b = 0 then nan else if 0 < b then posInf else negInf
  | negInf, fin b => if b = 0 then nan else if 0 < b then negInf else posInf
  | posInf, posInf => posInf
  | posInf, negInf => negInf
  | negInf, posInf => negInf
  | negInf, negInf => posInf

/-- Sum `a + b`. -/
def add : Float64 → Float64 → Float64
  | nan, _ => nan
  | _, nan => nan
  | fin a, fin b => ofRat (a + b)
  | fin _, posInf => posInf
  | fin _, negInf => negInf
  | posInf, fin _ => posInf
  | negInf, fin _ => negInf
  | posInf, posInf => posInf
  | negInf, negInf => negInf
  | posInf, negInf => nan
  | negInf, posInf => nan

/-- Comparison `0 < a` (false for NaN). -/
def isPos : Float64 → Bool
  | fin q => decide (0 < q)
  | posInf => true
  | _ => false

end Float64

/-- Two's complement reduction of an integer to 64 bits (Go `int64`, and `int` on a 64-bit
platform). -/
def wrap64 (x : ℤ) : ℤ := (x + 2 ^ 63) % 2 ^ 64 - 2 ^ 63

/-- Truncation of a rational toward zero. -/
def truncRat (q : ℚ) : ℤ := if 0 ≤ q then ⌊q⌋ else ⌈q⌉

/-- Conversion `int(f)`: the value truncated toward zero when it fits in 64 bits. For any
other value (too large, infinite, NaN) the Go specification leaves the result to the
implementation: `impl f` is that result. -/
def Float64.toInt (impl : Float64 → ℤ) (f : Float64) : ℤ :=
  match f with
  | .fin q =>
    if -2 ^ 63 ≤ truncRat q ∧ truncRat q < 2 ^ 63 then truncRat q else wrap64 (impl f)
  | _ => wrap64 (impl f)

/-- `time.Duration.Seconds` of a duration of `d` nanoseconds. -/
def seconds (d : ℤ) : Float64 :=
  Float64.add (Float64.ofInt (Int.tdiv d 1000000000))
    (Float64.div (Float64.ofInt (Int.tmod d 1000000000)) (Float64.fin 1000000000))

/-! ## The rate-limited reader -/

/-- The error of a `Read` call: `nil`, `io.EOF`, or any other error. -/
inductive ReadErr where
  | none
  | eof
  | other
  deriving DecidableEq, Repr

/-- What one `Read(p)` call returns: `data` are the `n` bytes it stored in `p[:n]`. -/
structure ReadResult where
  data : List UInt8
  err : ReadErr
  deriving DecidableEq

/-- Byte count `n` of a read. -/
def ReadResult.n (r : ReadResult) : ℕ := r.data.length

/-- Value `rate.Inf` (`math.MaxFloat64`), the largest finite float64. -/
def maxFloat64 : ℚ := 2 ^ 1024 - 2 ^ 971

/-- A `rate.Limiter` as the program sees it: the rate and the burst it was created with. -/
structure Limiter where
  limit : Float64
  burst : ℤ
  deriving DecidableEq

/-- Constructor `rate.NewLimiter(limit, burst)`. -/
def Limiter.new (limit : Float64) (burst : ℤ) : Limiter := ⟨limit, burst⟩

/-- What a call of `WaitN` with the nil context does: it returns the error "exceeds
limiter's burst" at once, no token taken and no time waited (`refused`), or it does not
return, the nil context being dereferenced (`panic`). -/
inductive WaitResult where
  | refused
  | panic
  deriving DecidableEq, Repr

/-- Call `limiter.WaitN(nil, n)`. The library compares `n` with the burst first
(`n > burst && limit != Inf` returns an error) and then reads `ctx.Done()`, which on the nil
context is a nil dereference: no call takes a token. -/
def Limiter.WaitN (l : Limiter) (n : ℕ) : WaitResult :=
  if l.burst < n ∧ l.limit ≠ Float64.fin maxFloat64 then WaitResult.refused
  else WaitResult.panic

/-- A reader with state `σ`: `read s p` is what `Read(p)` returns in state `s`, with the
next state. -/
abbrev ReadFn (σ : Type) := σ → List UInt8 → ReadResult × σ

/-- The struct `rateLimitedReader`. -/
structure rateLimitedReader (σ : Type) where
  reader : σ
  limiter : Limiter

/-- Method `(*rateLimitedReader).Read`: the underlying read, then `WaitN(nil, n)`, whose
error is dropped; `none` when `WaitN` panics. -/
def rateLimitedReader.Read {σ : Type} (under : ReadFn σ) (r : rateLimitedReader σ)
    (p : List UInt8) : Option (ReadResult × rateLimitedReader σ) :=
  let res := under r.reader p
  match r.limiter.WaitN res.1.n with
  | WaitResult.panic => none
  | WaitResult.refused => some (res.1, { reader := res.2, limiter := r.limiter })

/-! ## downloadFile -/

/-- What `outFile.Write(buffer[:n])` returns: success, or an error after `written` bytes. -/
inductive WriteResult where
  | ok
  | fail (written : ℕ)
  deriving DecidableEq

/-- The results the outside world gives to one iteration of the copy loop: the read of the
response body, the write to the file, and `time.Since(startTime)` in nanoseconds. -/
structure Iteration where
  read : ReadResult
  write : WriteResult
  elapsedNs : ℤ

/-- One progress line: the arguments of the `Printf` of the loop. -/
structure Render where
  blocks : ℤ
  progress : Float64
  downloadedSize : Float64
  totalSize : Float64
  unit : String
  remainingTime : Float64
  deriving DecidableEq

/-- How `downloadFile` ends. -/
inductive Outcome where
  | success
  | requestError
  | statusError
  | createError
  | writeError
  | readError
  | crash
  | blocked
  deriving DecidableEq, Repr

/-- Variables of the copy loop: the file written so far, `downloaded`, `lastPercent`, the
progress lines printed, and the reader (the limiter when there is one). -/
structure LoopState where
  file : List UInt8
  downloaded : ℤ
  lastPercent : ℤ
  renders : List Render
  limiter : Option Limiter

/-- Length of the read buffer, `make([]byte, 4096)`. -/
def bufferSize : ℕ := 4096

/-- Value `progressBarLength`. -/
def progressBarLength : ℤ := 20

/-- Percentage `float64(downloaded) / float64(contentLength) * 100`. -/
def progressOf (downloaded contentLength : ℤ) : Float64 :=
  Float64.mul (Float64.div (Float64.ofInt downloaded) (Float64.ofInt contentLength))
    (Float64.fin 100)

/-- Estimate `remainingTime`: `float64(contentLength-downloaded) / speed` with
`speed = float64(downloaded) / elapsed`. -/
def remainingTimeOf (downloaded contentLength elapsedNs : ℤ) : Float64 :=
  Float64.div (Float64.ofInt (wrap64 (contentLength - downloaded)))
    (Float64.div (Float64.ofInt downloaded) (seconds elapsedNs))

/-- Test `int(progress)-lastPercent >= 5`. -/
def shouldRender (impl : Float64 → ℤ) (progress : Float64) (lastPercent : ℤ) : Bool :=
  decide (5 ≤ wrap64 (Float64.toInt impl progress - lastPercent))

/-- Value `progressBlocks`: `int(progress / (100 / float64(progressBarLength)))`. -/
def progressBlocksOf (impl : Float64 → ℤ) (progress : Float64) : ℤ :=
  Float64.toInt impl
    (Float64.div progress (Float64.div (Float64.fin 100) (Float64.ofInt progressBarLength)))

/-- The `if n > 0` block after the write succeeded: the progress computation and the
throttled print. `none` is the run-time panic of `strings.Repeat` on a negative count. -/
def progressStep (impl : Float64 → ℤ) (contentLength elapsedNs : ℤ) (n : ℕ) (s : LoopState) :
    Option LoopState :=
  let downloaded := wrap64 (s.downloaded + n)
  let progress := progressOf downloaded contentLength
  let remainingTime := remainingTimeOf downloaded contentLength elapsedNs
  let mib : ℚ := 1024 * 1024
  let big := decide (1024 * 1024 ≤ contentLength)
  let downloadedSize :=
    Float64.div (Float64.ofInt downloaded) (Float64.fin (if big then mib else 1024))
  let totalSize :=
    Float64.div (Float64.ofInt contentLength) (Float64.fin (if big then mib else 1024))
  let unit := if big then "MiB" else "KiB"
  if shouldRender impl progress s.lastPercent then
    let progressBlocks := progressBlocksOf impl progress
    if progressBlocks < 0 ∨ wrap64 (progressBarLength - progressBlocks) < 0 then none
    else
      some { s with
        downloaded := downloaded
        lastPercent := Float64.toInt impl progress
        renders := s.renders ++
          [⟨progressBlocks, progress, downloadedSize, totalSize, unit, remainingTime⟩] }
  else some { s with downloaded := downloaded }

/-- Call `reader.Read(buffer)`: on the response body itself, or through the
`rateLimitedReader` when a limiter was installed. `body` is what the body returns; `none`
when the call panics. -/
def readerRead (body : ReadResult) (s : LoopState) : Option ReadResult :=
  match s.limiter with
  | none => some body
  | some l =>
    (rateLimitedReader.Read (fun (_ : Unit) _ => (body, ())) ⟨(), l⟩
      (List.replicate bufferSize 0)).map (fun r => r.1)

/-- How one pass of the loop ends: the function returns (`done`), or the loop goes on. -/
inductive Pass where
  | done (o : Outcome) (s : LoopState)
  | next (s : LoopState)

/-- End of a pass of the loop: `break` on `io.EOF`, return on another error, else the next
pass. -/
def endOfPass (err : ReadErr) (s : LoopState) : Pass :=
  match err with
  | ReadErr.eof => Pass.done Outcome.success s
  | ReadErr.other => Pass.done Outcome.readError s
  | ReadErr.none => Pass.next s

/-- Body of the `for` loop of `downloadFile`. The run ends in `crash` when the read panics
in `WaitN`, when a read of more bytes than the buffer holds makes `buffer[:n]` panic, and
when `strings.Repeat` panics. -/
def loopBody (impl : Float64 → ℤ) (contentLength : ℤ) (it : Iteration) (s : LoopState) :
    Pass :=
  match readerRead it.read s with
  | none => Pass.done Outcome.crash s
  | some r =>
    if bufferSize < r.n then Pass.done Outcome.crash s
    else if 0 < r.n then
      match it.write with
      | WriteResult.fail k =>
        Pass.done Outcome.writeError { s with file := s.file ++ r.data.take k }
      | WriteResult.ok =>
        match progressStep impl contentLength it.elapsedNs r.n
            { s with file := s.file ++ r.data } with
        | none => Pass.done Outcome.crash { s with file := s.file ++ r.data }
        | some s2 => endOfPass r.err s2
    else endOfPass r.err s

/-- The `for` loop of `downloadFile`, one `Iteration` for each pass. A list that ends before
the loop does stands for a `Read` that does not return (`blocked`). -/
def copyLoop (impl : Float64 → ℤ) (contentLength : ℤ) :
    List Iteration → LoopState → Outcome × LoopState
  | [], s => (Outcome.blocked, s)
  | it :: rest, s =>
    match loopBody impl contentLength it s with
    | Pass.done o s1 => (o, s1)
    | Pass.next s1 => copyLoop impl contentLength rest s1

/-- Go `path.Base` (and `filepath.Base` on a Unix system): the last element of a path. -/
def pathBase (p : String) : String :=
  if p = "" then "."
  else
    let stripped := p.toList.reverse.dropWhile (fun c => c = '/')
    if stripped = [] then "/"
    else String.mk (stripped.takeWhile (fun c => c ≠ '/')).reverse

/-- What `http.Get` returns: an error, or a response with its status code, its declared
`ContentLength` and the passes its body will go through. -/
inductive GetResult where
  | error
  | response (status : ℕ) (contentLength : ℤ) (body : List Iteration)

/-- The reader `downloadFile` installs: a limiter of `speedLimit*1024` tokens per second and
the same burst when `speedLimit > 0`, none otherwise. -/
def newLimiter (impl : Float64 → ℤ) (speedLimit : Float64) : Option Limiter :=
  if speedLimit.isPos then
    some (Limiter.new (Float64.mul speedLimit (Float64.fin 1024))
      (Float64.toInt impl (Float64.mul speedLimit (Float64.fin 1024))))
  else none

/-- What a call of `downloadFile` leaves behind: how it ended, the path of the file it
created (if it got that far) with the bytes written to it, the progress lines, the limiter. -/
structure Download where
  outcome : Outcome
  path : Option String
  file : List UInt8
  renders : List Render
  limiter : Option Limiter

/-- Function `downloadFile(url, outputPath, speedLimit)`; `get` is what `http.Get(url)`
returns and `createOk` whether `os.Create` succeeds. -/
def downloadFile (impl : Float64 → ℤ) (get : GetResult) (createOk : Bool)
    (url outputPath : String) (speedLimit : Float64) : Download :=
  match get with
  | GetResult.error => ⟨Outcome.requestError, none, [], [], none⟩
  | GetResult.response status contentLength body =>
    if status ≠ 200 then ⟨Outcome.statusError, none, [], [], none⟩
    else
      let outputPath := if outputPath = "" then pathBase url else outputPath
      if createOk = false then ⟨Outcome.createError, none, [], [], none⟩
      else
        let r := copyLoop impl contentLength body
          ⟨[], 0, -5, [], newLimiter impl speedLimit⟩
        ⟨r.1, some outputPath, r.2.file, r.2.renders, r.2.limiter⟩

/-! ### Runs of the copy loop -/

/-- Number of bytes the reads of a run return. -/
def totalBytes (script : List Iteration) : ℕ :=
  (script.map (fun it => it.read.n)).sum

/-- The bytes the reads of a run return, in order. -/
def delivered (script : List Iteration) : List UInt8 :=
  script.foldr (fun it acc => it.read.data ++ acc) []

/-- A run in which the body is delivered as a finite sequence of reads that ends in
end-of-stream (the last read may return bytes together with it), every read fits the buffer
and every write succeeds. -/
def cleanRun : List Iteration → Bool
  | [] => false
  | it :: rest =>
    decide (it.read.n ≤ bufferSize) && decide (it.write = WriteResult.ok) &&
      (match rest with
       | [] => decide (it.read.err = ReadErr.eof)
       | _ :: _ => decide (it.read.err = ReadErr.none) && cleanRun rest)

/-- The reporting ticks of a run: the value of `downloaded` after each pass whose read
returned bytes, `downloaded` being the count before the run. -/
def ticks (downloaded : ℤ) : List Iteration → List ℤ
  | [] => []
  | it :: rest =>
    if 0 < it.read.n then (downloaded + it.read.n) :: ticks (downloaded + it.read.n) rest
    else ticks downloaded rest

/-- The throttle as a rule on the successive percentages: a percentage is shown when its
whole part is at least 5 above `last`, the whole part of the percentage shown before it. -/
def throttle (impl : Float64 → ℤ) (last : ℤ) : List Float64 → List Float64
  | [] => []
  | p :: ps =>
    if 5 ≤ Float64.toInt impl p - last then p :: throttle impl (Float64.toInt impl p) ps
    else throttle impl last ps

/-! ### Sample runs -/

/-- A pass that reads 20 bytes together with end-of-stream, `e` nanoseconds after the
start. -/
def shortLengthPass (e : ℤ) : Iteration :=
  ⟨⟨List.replicate 20 0, ReadErr.eof⟩, WriteResult.ok, e⟩

/-- A pass that reads one byte together with end-of-stream, one second after the start. -/
def oneBytePass : Iteration :=
  ⟨⟨[0], ReadErr.eof⟩, WriteResult.ok, 1000000000⟩

/-- A run of two reads of three bytes, the second with end-of-stream. -/
def twoReads : List Iteration :=
  [⟨⟨[1, 2, 3], ReadErr.none⟩, WriteResult.ok, 1000000000⟩,
   ⟨⟨[4, 5, 6], ReadErr.eof⟩, WriteResult.ok, 2000000000⟩]

/-- An implementation that converts every float64 outside the `int` range to 0. -/
def implZero : Float64 → ℤ := fun _ => 0

/-! ## The shallow mirror -/

/-- Contents of files and of response bodies. -/
abbrev Bytes := List UInt8

/-- The file system: the contents of the file at each path, if there is one. -/
abbrev FS := String → Option Bytes

/-- The file system after the file at `path` was created (or truncated) and `content` written
to it. -/
def FS.write (fs : FS) (path : String) (content : Bytes) : FS :=
  fun p => if p = path then some content else fs p

/-- Scan of `filepath.Ext` from the end of the path (the characters come reversed): it stops
at a path separator, and at the first dot returns the suffix that starts there. -/
def extScan : List Char → List Char → List Char
  | [], _ => []
  | c :: cs, acc =>
    if c = '/' then [] else if c = '.' then c :: acc else extScan cs (c :: acc)

/-- Go `filepath.Ext` on a Unix system. -/
def filepathExt (path : String) : String := String.mk (extScan path.toList.reverse [])

/-- Go `strings.TrimPrefix(s, ".")`. -/
def trimDot (s : String) : String :=
  match s.toList with
  | c :: cs => if c = '.' then String.mk cs else s
  | [] => s

/-- Go `unicode.IsSpace`. -/
def isSpace (c : Char) : Bool :=
  let n := c.toNat
  (9 ≤ n ∧ n ≤ 13) ∨ n = 32 ∨ n = 133 ∨ n = 160 ∨ n = 5760 ∨ (8192 ≤ n ∧ n ≤ 8202) ∨
    n = 8232 ∨ n = 8233 ∨ n = 8239 ∨ n = 8287 ∨ n = 12288

/-- Go `strings.TrimSpace`. -/
def trimSpace (s : String) : String :=
  String.mk ((s.toList.dropWhile isSpace).reverse.dropWhile isSpace).reverse

/-- Pieces of a character list between commas. -/
def splitComma : List Char → List (List Char)
  | [] => [[]]
  | c :: cs =>
    if c = ',' then [] :: splitComma cs
    else
      match splitComma cs with
      | [] => [[c]]
      | w :: ws => (c :: w) :: ws

/-- Go `strings.Split(s, ",")`. -/
def stringsSplit (s : String) : List String := (splitComma s.toList).map String.mk

/-- A Go `map[string]bool`: the value stored at each key, `false` for an absent key. -/
abbrev RejectMap := String → Bool

/-- Assignment `rejectMap[key] = true`. -/
def RejectMap.set (m : RejectMap) (key : String) : RejectMap :=
  fun k => if k = key then true else m k

/-- The `rejectMap` that `mirrorWebsite` builds from `rejectTypes`. -/
def buildRejectMap (rejectTypes : String) : RejectMap :=
  if rejectTypes ≠ "" then
    (stringsSplit rejectTypes).foldl (fun m ext => RejectMap.set m (trimSpace ext))
      (fun _ => false)
  else fun _ => false

/-- Function `shouldReject`. -/
def shouldReject (url : String) (rejectMap : RejectMap) : Bool :=
  rejectMap (trimDot (filepathExt url))

/-- The functions of `net/url` and `path/filepath` the program calls, over the library's type
`U` of parsed URLs. `parse` is `url.Parse` (`none` for an error), `scheme` and `path` are
the fields `Scheme` and `Path`, `resolveReference` is `ResolveReference` (its receiver is
`none` for a nil pointer, on which the method returns only for a reference that has a
scheme), `toString` is `String`, `rel` is `filepath.Rel`, `dir` is
`filepath.ToSlash(filepath.Dir(...))`. -/
structure Lib (U : Type) where
  parse : String → Option U
  scheme : U → String
  path : U → String
  hostname : U → String
  resolveReference : Option U → U → U
  toString : U → String
  rel : String → String → Option String
  join : String → String → String
  dir : String → String

/-- One element of a parsed page: its tag and its attributes, in source order. -/
structure Element where
  tag : String
  attrs : List (String × String)
  deriving DecidableEq

/-- Method `Attr` of a goquery selection of one element: the value of the first attribute
named `key`. -/
def Element.attr (e : Element) (key : String) : Option String :=
  (e.attrs.find? (fun a => a.1 = key)).map (fun a => a.2)

/-- Function `resolveURL`. The error of `url.Parse(baseURL)` is dropped, so `parsedBase` is
nil when the base does not parse: `ResolveReference` then reads `u.Scheme` through the nil
pointer for a reference without scheme, and the program panics (`none`). -/
def resolveURL {U : Type} (lib : Lib U) (href baseURL : String) : Option String :=
  match lib.parse href with
  | none => some ""
  | some parsedHref =>
    match lib.parse baseURL with
    | some parsedBase =>
      some (lib.toString (lib.resolveReference (some parsedBase) parsedHref))
    | none =>
      if lib.scheme parsedHref = "" then none
      else some (lib.toString (lib.resolveReference none parsedHref))

/-- Function `extractLinks`; `doc` is what goquery finds in the markup: `none` when the
document cannot be read, else the elements matched by `a, link, img, script, source` in
document order. The result is `none` when a call of `resolveURL` panics. -/
def extractLinks {U : Type} (lib : Lib U) (doc : Option (List Element)) (baseURL : String) :
    Option (List String) :=
  match doc with
  | none => some []
  | some selection =>
    selection.foldl
      (fun acc s =>
        match acc with
        | none => none
        | some links =>
          let src := match s.attr "href" with
            | some v => some v
            | none => s.attr "src"
          match src with
          | some v => (resolveURL lib v baseURL).map (fun fullURL => links ++ [fullURL])
          | none => some links)
      (some [])

/-- Function `extractDomain`. -/
def extractDomain {U : Type} (lib : Lib U) (urlStr : String) : String :=
  match lib.parse urlStr with
  | none => "unknown"
  | some parsedURL => lib.hostname parsedURL

/-- What the HTTP client gives `fetchHTML`: an error of `http.Get`, or the status code and
the body read by `io.ReadAll` (`none` when reading fails). -/
inductive PageFetch where
  | getError
  | response (status : ℕ) (body : Option Bytes)

/-- Function `fetchHTML`: the markup, or `none` for an error. -/
def fetchHTML : PageFetch → Option Bytes
  | PageFetch.getError => none
  | PageFetch.response status body => if status ≠ 200 then none else body

/-- Call `http.Get(url)` of `fetchHTML`: the request is built from `url.Parse(url)`, whose
error is returned before anything is sent; `answer` is what the client gives for a URL that
parses. -/
def httpGet {U : Type} (lib : Lib U) (url : String) (answer : PageFetch) : PageFetch :=
  match lib.parse url with
  | none => PageFetch.getError
  | some _ => answer

/-- What the outside world gives one call of `downloadAsset`: the result of `http.Get`
(`none` for an error, else status code and body), whether `os.Create` succeeds, and
`io.Copy` (`none` for success, `some k` for an error after `k` bytes). -/
structure AssetFetch where
  get : Option (ℕ × Bytes)
  createOk : Bool
  copyFail : Option ℕ

/-- Function `downloadAsset`: `true` when it returns nil, and the file system it leaves. -/
def downloadAsset {U : Type} (lib : Lib U) (w : AssetFetch) (assetURL outputDir : String)
    (fs : FS) : Bool × FS :=
  match w.get with
  | none => (false, fs)
  | some (status, body) =>
    if status ≠ 200 then (false, fs)
    else
      let filePath := lib.join outputDir (pathBase assetURL)
      if w.createOk = false then (false, fs)
      else
        match w.copyFail with
        | some k => (false, fs.write filePath (body.take k))
        | none => (true, fs.write filePath body)

/-- What the outside world gives one run of `mirrorWebsite`: the page fetch, what goquery
finds in a markup, the answers to the download of the `i`-th extracted link, and whether the
final `os.WriteFile` succeeds. -/
structure MirrorWorld where
  page : PageFetch
  find : Bytes → Option (List Element)
  asset : ℕ → String → AssetFetch
  writeIndexOk : Bool

/-- State of the download loop of `mirrorWebsite`: the index of the next link, the file
system, and the links skipped, passed to `downloadAsset`, and reported as failed. -/
structure MirrorState where
  index : ℕ
  fs : FS
  skipped : List String
  attempted : List String
  failed : List String

/-- Body of the loop `for _, link := range links`. -/
def mirrorStep {U : Type} (lib : Lib U) (w : MirrorWorld) (rejectMap : RejectMap)
    (outputDir : String) (s : MirrorState) (link : String) : MirrorState :=
  if shouldReject link rejectMap then
    { s with index := s.index + 1, skipped := s.skipped ++ [link] }
  else
    let r := downloadAsset lib (w.asset s.index link) link outputDir s.fs
    { index := s.index + 1
      fs := r.2
      skipped := s.skipped
      attempted := s.attempted ++ [link]
      failed := if r.1 then s.failed else s.failed ++ [link] }

/-- The loop `for _, link := range links` of `mirrorWebsite`, from the file system `fs`. -/
def mirrorLoop {U : Type} (lib : Lib U) (w : MirrorWorld) (rejectTypes outputDir : String)
    (links : List String) (fs : FS) : MirrorState :=
  links.foldl (mirrorStep lib w (buildRejectMap rejectTypes) outputDir) ⟨0, fs, [], [], []⟩

/-- How `mirrorWebsite` ends: with one of its two errors, with nil, or in the panic of
`extractLinks`. -/
inductive MirrorResult where
  | fetchError
  | writeError (s : MirrorState)
  | success (s : MirrorState)
  | crash

/-- Function `mirrorWebsite`, from the file system `fs`. -/
def mirrorWebsite {U : Type} (lib : Lib U) (w : MirrorWorld)
    (url rejectTypes _acceptType : String) (_recursive : Bool) (fs : FS) : MirrorResult :=
  let outputDir := extractDomain lib url ++ "_mirror"
  match fetchHTML (httpGet lib url w.page) with
  | none => MirrorResult.fetchError
  | some htmlContent =>
    match extractLinks lib (w.find htmlContent) url with
    | none => MirrorResult.crash
    | some links =>
      let s := mirrorLoop lib w rejectTypes outputDir links fs
      let mainFilePath := lib.join outputDir "index.html"
      if w.writeIndexOk = false then MirrorResult.writeError s
      else MirrorResult.success { s with fs := s.fs.write mainFilePath htmlContent }

/-- The function returned an error. -/
def MirrorResult.isError : MirrorResult → Bool
  | MirrorResult.fetchError => true
  | MirrorResult.writeError _ => true
  | MirrorResult.success _ => false
  | MirrorResult.crash => false

/-- The state of the download loop at the end of a run that got past the page fetch. -/
def MirrorResult.state : MirrorResult → Option MirrorState
  | MirrorResult.fetchError => none
  | MirrorResult.writeError s => some s
  | MirrorResult.success s => some s
  | MirrorResult.crash => none

/-- The value `extractLinks` reads from an element: `href` when the element has one, else
`src`. -/
def Element.link (e : Element) : Option String :=
  match e.attr "href" with
  | some v => some v
  | none => e.attr "src"

/-- The links as the specification words them: an element contributes the resolution of its
value against the base only when the value parses and does not have the scheme `mailto`. -/
def wellFormedLinks {U : Type} (lib : Lib U) (selection : List Element) (baseURL : String) :
    List String :=
  selection.filterMap (fun e =>
    match e.link with
    | none => none
    | some v =>
      match lib.parse v with
      | none => none
      | some u =>
        if lib.scheme u = "mailto" then none
        else some (lib.toString (lib.resolveReference (lib.parse baseURL) u)))

/-! ### Sample values of `net/url` and `path/filepath` -/

/-- A parsed URL of the sample library: the fields `Scheme`, `Host`, `Path`, `Opaque`. -/
structure SampleURL where
  scheme : String
  host : String
  path : String
  opaque_ : String
  deriving DecidableEq, Repr

/-- Results of `url.Parse` on the sample values (`:bad` has no protocol scheme and is an
error; in `file://./` the dot is the host and the path is `/`); values outside the sample
are left unparsed. -/
def sampleParse (s : String) : Option SampleURL :=
  if s = "http://example.com/dir/" then some ⟨"http", "example.com", "/dir/", ""⟩
  else if s = "http://example.com/page" then some ⟨"http", "example.com", "/page", ""⟩
  else if s = "file:///site/" then some ⟨"file", "", "/site/", ""⟩
  else if s = "file://./" then some ⟨"file", ".", "/", ""⟩
  else if s = "/x" then some ⟨"", "", "/x", ""⟩
  else if s = "y.png" then some ⟨"", "", "y.png", ""⟩
  else if s = "mailto:a@b.c" then some ⟨"mailto", "", "", "a@b.c"⟩
  else if s = "http://example.com/" then some ⟨"http", "example.com", "/", ""⟩
  else if s = "a.png" then some ⟨"", "", "a.png", ""⟩
  else if s = "b.exe" then some ⟨"", "", "b.exe", ""⟩
  else none

/-- Results of `ResolveReference` on the sample values: a reference with a scheme stands for
itself (also on a nil receiver), a rooted path replaces the path of the base, a relative
path is appended to the directory of the base. -/
def sampleResolve (base : Option SampleURL) (ref : SampleURL) : SampleURL :=
  match base with
  | none => ref
  | some b =>
    if ref.scheme ≠ "" then ref
    else if ref.path.toList.head? = some '/' then { b with path := ref.path }
    else
      let dir := (b.path.toList.reverse.dropWhile (fun c => c ≠ '/')).reverse
      { b with path := String.mk (dir ++ ref.path.toList) }

/-- Results of `(*URL).String` on the sample values. -/
def sampleString (u : SampleURL) : String :=
  if u.opaque_ ≠ "" then u.scheme ++ ":" ++ u.opaque_
  else u.scheme ++ "://" ++ u.host ++ u.path

/-- Results of `filepath.Rel` on the sample values; a rooted path has no path relative to
`.`, which is an error. -/
def sampleRel (basepath targpath : String) : Option String :=
  if basepath = "/site/" ∧ targpath = "/page" then some "../page"
  else if basepath = "/site/" ∧ targpath = "/site/y.png" then some "y.png"
  else if basepath = "/site/" ∧ targpath = "/x" then some "../x"
  else if basepath = "/" ∧ targpath = "/x" then some "x"
  else if basepath = "/" ∧ targpath = "/page" then some "page"
  else none

/-- Results of `filepath.ToSlash(filepath.Dir(...))` on the sample values: `/site` for
`/site/index.html`, and `.` for a file name without directory. -/
def sampleDir (filePath : String) : String :=
  if filePath = "/site/index.html" then "/site" else "."

/-- The sample library. -/
def sampleLib : Lib SampleURL where
  parse := sampleParse
  scheme := fun u => u.scheme
  path := fun u => u.path
  hostname := fun u => u.host
  resolveReference := sampleResolve
  toString := sampleString
  rel := sampleRel
  join := fun dir name => dir ++ "/" ++ name
  dir := sampleDir

/-- A page with four links: rooted, malformed, `mailto`, relative. -/
def samplePage : List Element :=
  [⟨"a", [("href", "/x")]⟩, ⟨"a", [("href", ":bad")]⟩, ⟨"a", [("href", "mailto:a@b.c")]⟩,
   ⟨"img", [("src", "y.png")]⟩]

/-! ## The link rewriter -/

/-- Type `html.NodeType`. -/
inductive NodeType where
  | errorNode
  | textNode
  | documentNode
  | elementNode
  | commentNode
  | doctypeNode
  | rawNode
  deriving DecidableEq, Repr

/-- Type `html.Attribute`. -/
structure Attribute where
  ns : String
  key : String
  val : String
  deriving DecidableEq, Repr

/-- A node of the parsed document (`html.Node`) with its children, first to last. -/
inductive Node where
  | mk (type : NodeType) (data : String) (attr : List Attribute) (children : List Node)

/-- The new value the loop body computes for an attribute value, or `none` where the body
runs `continue`: the value does not parse, has the scheme `mailto`, or `filepath.Rel` fails. -/
def relativeValue {U : Type} (lib : Lib U) (base : U) (val : String) : Option String :=
  match lib.parse val with
  | none => none
  | some u =>
    if lib.scheme u = "mailto" then none
    else
      let resolved := lib.resolveReference (some base) u
      lib.rel (lib.path base) (lib.path resolved)

/-- Pass `i` of the loop `for i, a := range n.Attr` for the attribute name `attr`, on the
slice `attrs` as the earlier passes left it. -/
def attrPass {U : Type} (lib : Lib U) (base : U) (attr : String) (attrs : List Attribute)
    (i : ℕ) : List Attribute :=
  match attrs[i]? with
  | none => attrs
  | some a =>
    if a.key = attr then
      match relativeValue lib base a.val with
      | none => attrs
      | some relPath => attrs.set i { a with val := relPath }
    else attrs

/-- The loop `for i, a := range n.Attr` for one attribute name. -/
def attrLoop {U : Type} (lib : Lib U) (base : U) (attrs : List Attribute) (attr : String) :
    List Attribute :=
  (List.range attrs.length).foldl (attrPass lib base attr) attrs

/-- The loop `for _, attr := range []string{"href", "src"}` on the attributes of a node. -/
def rewriteAttrs {U : Type} (lib : Lib U) (base : U) (attrs : List Attribute) :
    List Attribute :=
  ["href", "src"].foldl (attrLoop lib base) attrs

mutual
/-- The closure `traverse` of `convertLinksFunction`, as the tree it leaves. -/
def traverse {U : Type} (lib : Lib U) (base : U) : Node → Node
  | Node.mk type data attr children =>
    Node.mk type data
      (if type = NodeType.elementNode then rewriteAttrs lib base attr else attr)
      (traverseChildren lib base children)
/-- The loop of `traverse` over the children of a node. -/
def traverseChildren {U : Type} (lib : Lib U) (base : U) : List Node → List Node
  | [] => []
  | c :: cs => traverse lib base c :: traverseChildren lib base cs
end

/-- The rewrite of one attribute as the specification words it: the value of an `href` or
`src` attribute is replaced by the relative path where there is one; a `mailto` value, a
value that does not parse and a value without relative path stay, and so does every other
attribute. -/
def rewriteAttr {U : Type} (lib : Lib U) (base : U) (a : Attribute) : Attribute :=
  if a.key = "href" ∨ a.key = "src" then
    match relativeValue lib base a.val with
    | some relPath => { a with val := relPath }
    | none => a
  else a

mutual
/-- The document as the specification words it: the same tree, where the attributes of the
element nodes are rewritten by `rewriteAttr`. -/
def rewriteTree {U : Type} (lib : Lib U) (base : U) : Node → Node
  | Node.mk type data attr children =>
    Node.mk type data
      (if type = NodeType.elementNode then attr.map (rewriteAttr lib base) else attr)
      (rewriteForest lib base children)
/-- The children as the specification words them. -/
def rewriteForest {U : Type} (lib : Lib U) (base : U) : List Node → List Node
  | [] => []
  | c :: cs => rewriteTree lib base c :: rewriteForest lib base cs
end

/-- The base of the sample document: the parsed `file:///site/`. -/
def sampleBase : SampleURL := ⟨"file", "", "/site/", ""⟩

/-- The base `convertLinksFunction` gets for `downloaded_page.html`: the parsed `file://./`. -/
def localBase : SampleURL := ⟨"file", ".", "/", ""⟩

/-- A document for `downloaded_page.html`: an image with the rooted source `/x` and a link
to `http://example.com/page`. -/
def localDoc : Node :=
  Node.mk NodeType.documentNode "" []
    [Node.mk NodeType.elementNode "img" [⟨"", "src", "/x"⟩] [],
     Node.mk NodeType.elementNode "a" [⟨"", "href", "http://example.com/page"⟩] []]

/-- The document of `downloaded_page.html` after the rewrite. -/
def localDocRewritten : Node :=
  Node.mk NodeType.documentNode "" []
    [Node.mk NodeType.elementNode "img" [⟨"", "src", "x"⟩] [],
     Node.mk NodeType.elementNode "a" [⟨"", "href", "page"⟩] []]

/-- A sample document: a link with an absolute URL, a `mailto` link, a malformed link, an
image with a relative source and a class, and a text. -/
def sampleDoc : Node :=
  Node.mk NodeType.documentNode "" []
    [Node.mk NodeType.elementNode "a" [⟨"", "href", "http://example.com/page"⟩] [],
     Node.mk NodeType.elementNode "a" [⟨"", "href", "mailto:a@b.c"⟩] [],
     Node.mk NodeType.elementNode "a" [⟨"", "href", ":bad"⟩]
       [Node.mk NodeType.textNode "href" [⟨"", "href", "/x"⟩] []],
     Node.mk NodeType.elementNode "img" [⟨"", "class", "y.png"⟩, ⟨"", "src", "/x"⟩] []]

/-- The sample document after the rewrite. -/
def sampleDocRewritten : Node :=
  Node.mk NodeType.documentNode "" []
    [Node.mk NodeType.elementNode "a" [⟨"", "href", "../page"⟩] [],
     Node.mk NodeType.elementNode "a" [⟨"", "href", "mailto:a@b.c"⟩] [],
     Node.mk NodeType.elementNode "a" [⟨"", "href", ":bad"⟩]
       [Node.mk NodeType.textNode "href" [⟨"", "href", "/x"⟩] []],
     Node.mk NodeType.elementNode "img" [⟨"", "class", "y.png"⟩, ⟨"", "src", "../x"⟩] []]

/-- What the outside world gives one run of `convertLinksFunction`: the contents of the file
(`none` when `os.Open` fails), the parser `html.Parse`, the printer `html.Render`, and
whether `os.WriteFile` succeeds. -/
structure RewriteWorld where
  opened : Option Bytes
  parseHTML : Bytes → Option Node
  render : Node → Option Bytes
  writeOk : Bool

/-- The base URL of `convertLinksFunction`:
`url.Parse("file://" + filepath.ToSlash(filepath.Dir(filePath)) + "/")`. -/
def fileBase {U : Type} (lib : Lib U) (filePath : String) : Option U :=
  lib.parse ("file://" ++ lib.dir filePath ++ "/")

/-- The new value of an attribute as the specification words it: the path of the resolved
value relative to the directory that contains the file. -/
def directoryRelative {U : Type} (lib : Lib U) (filePath : String) (base : U) (val : String) :
    Option String :=
  match lib.parse val with
  | none => none
  | some u =>
    if lib.scheme u = "mailto" then none
    else lib.rel (lib.dir filePath) (lib.path (lib.resolveReference (some base) u))

/-- Function `convertLinksFunction`: `true` when it returns nil, and the file system. -/
def convertLinksFunction {U : Type} (lib : Lib U) (w : RewriteWorld) (filePath : String)
    (fs : FS) : Bool × FS :=
  match w.opened with
  | none => (false, fs)
  | some content =>
    match w.parseHTML content with
    | none => (false, fs)
    | some doc =>
      match fileBase lib filePath with
      | none => (false, fs)
      | some base =>
        match w.render (traverse lib base doc) with
        | none => (false, fs)
        | some buf =>
          if w.writeOk = false then (false, fs) else (true, fs.write filePath buf)

/-! ## main -/

/-- The command line after `flag.Parse`: the flags and the positional arguments. -/
structure Args where
  mirrorFlag : Bool
  convertLinks : Bool
  rejectType : String
  acceptType : String
  recursive : Bool
  speedLimit : Float64
  outputFile : String
  outputDir : String
  positional : List String

/-- The functions `main` calls, on a world `σ`: each gives `true` when it returns no error,
and the world it leaves. `userHomeDir` is `os.UserHomeDir`, `mkdirAll` is `os.MkdirAll`,
`join` is `filepath.Join`. -/
structure Calls (σ : Type) where
  mirrorWebsite : String → String → String → Bool → σ → Bool × σ
  convertLinksFunction : String → σ → Bool × σ
  downloadFile : String → String → Float64 → σ → Bool × σ
  userHomeDir : σ → Option String
  mkdirAll : String → σ → Bool × σ
  join : String → String → String

/-- The end of `main` from `// Determine output file name`: the save path from `-O` and
`-P`, then the download to it. The result is the exit status and the world. -/
def mainSave {σ : Type} (c : Calls σ) (a : Args) (url : String) (w : σ) : ℕ × σ :=
  let fileName := if a.outputFile = "" then pathBase url else a.outputFile
  if a.outputDir ≠ "" then
    let expanded : Option String :=
      match a.outputDir.toList with
      | ch :: rest =>
        if ch = '~' then (c.userHomeDir w).map (fun homeDir => c.join homeDir (String.mk rest))
        else some a.outputDir
      | [] => some a.outputDir
    match expanded with
    | none => (1, w)
    | some expandedDir =>
      let m := c.mkdirAll expandedDir w
      if m.1 = false then (1, m.2)
      else
        let d := c.downloadFile url (c.join expandedDir fileName) a.speedLimit m.2
        if d.1 = false then (1, d.2) else (0, d.2)
  else
    let d := c.downloadFile url fileName a.speedLimit w
    if d.1 = false then (1, d.2) else (0, d.2)

/-- The part of `main` from `// Example usage`: the rewrite of `downloaded_page.html`, whose
error is only printed, the download to `outputPath`, then `mainSave`. -/
def mainDownload {σ : Type} (c : Calls σ) (a : Args) (url outputPath : String) (w : σ) :
    ℕ × σ :=
  let r := c.convertLinksFunction "downloaded_page.html" w
  let d := c.downloadFile url outputPath a.speedLimit r.2
  if d.1 = false then (1, d.2) else mainSave c a url d.2

/-- The part of `main` from `flag.Parse()`, on the command line `a`: the exit status and the
world it leaves. -/
def mainParsed {σ : Type} (c : Calls σ) (a : Args) (w : σ) : ℕ × σ :=
  match a.positional with
  | [] => (1, w)
  | url :: more =>
    let outputPath := more.headD ""
    let m : Bool × σ :=
      if a.mirrorFlag then c.mirrorWebsite url a.rejectType a.acceptType a.recursive w
      else (true, w)
    if m.1 = false then (1, m.2)
    else
      let r : Bool × σ :=
        if a.convertLinks then c.convertLinksFunction url m.2 else (true, m.2)
      if r.1 = false then (1, r.2)
      else mainDownload c a url outputPath r.2

/-- A flag definition on `flag.CommandLine` (`flag.BoolVar`, `flag.StringVar`,
`flag.Float64`, `flag.String`): `formal` are the names defined so far; the definition of a
name that is already there panics (`none`). -/
def flagVar (formal : List String) (name : String) : Option (List String) :=
  if name ∈ formal then none else some (formal ++ [name])

/-- Function `init`: the definition of the flag `mirror`. -/
def init (formal : List String) : Option (List String) := flagVar formal "mirror"

/-- The flag definitions at the head of `main`, in order. -/
def mainFlags (formal : List String) : Option (List String) :=
  ["mirror", "convert-links", "reject", "accept", "recursive", "limit", "O", "P"].foldlM
    flagVar formal

/-- Function `main`, run after `init` on the empty flag set: the exit status and the world
it leaves. A panic ends the program with status 2; `a` is what `flag.Parse` would read from
the command line. -/
def main {σ : Type} (c : Calls σ) (a : Args) (w : σ) : ℕ × σ :=
  match (init []).bind mainFlags with
  | none => (2, w)
  | some _ => mainParsed c a w

/-! ### A sample run of `mirrorWebsite` -/

/-- The markup of the sample page, `<img src="a.png"><a href="b.exe">b</a>`, as bytes. -/
def sampleMarkup : Bytes :=
  [60, 105, 109, 103, 32, 115, 114, 99, 61, 34, 97, 46, 112, 110, 103, 34, 62, 60, 97, 32, 104,
   114, 101, 102, 61, 34, 98, 46, 101, 120, 101, 34, 62, 98, 60, 47, 97, 62]

/-- The world of the sample mirror: the page is fetched with status 200, goquery finds its
two elements, every asset is answered with three bytes and every file can be written. -/
def sampleMirror : MirrorWorld where
  page := PageFetch.response 200 (some sampleMarkup)
  find := fun markup =>
    if markup = sampleMarkup then some [⟨"img", [("src", "a.png")]⟩, ⟨"a", [("href", "b.exe")]⟩]
    else some []
  asset := fun _ _ => ⟨some (200, [1, 2, 3]), true, none⟩
  writeIndexOk := true

/-! ### A sample run of `main` -/

/-- The world of the sample run: the file system and the number of HTTP requests made. -/
structure SampleWorld where
  fs : FS
  requests : ℕ

/-- The body of the sample response: three bytes in one read, with end-of-stream. -/
def sampleBody : List Iteration :=
  [⟨⟨[1, 2, 3], ReadErr.eof⟩, WriteResult.ok, 1000000000⟩]

/-- The calls of the sample run: every request is answered with status 200, a declared
length of 3 and `sampleBody`, every file can be created, there is no file
`downloaded_page.html` to open, and the page fetch of the mirror fails. -/
def sampleCalls : Calls SampleWorld where
  mirrorWebsite := fun url rejectType acceptType recursive w =>
    (!(mirrorWebsite sampleLib ⟨PageFetch.getError, fun _ => none, fun _ _ => ⟨none, false, none⟩,
      false⟩ url rejectType acceptType recursive w.fs).isError, w)
  convertLinksFunction := fun filePath w =>
    let r := convertLinksFunction sampleLib ⟨none, fun _ => none, fun _ => none, true⟩
      filePath w.fs
    (r.1, { w with fs := r.2 })
  downloadFile := fun url outputPath speedLimit w =>
    let d := downloadFile implZero (GetResult.response 200 3 sampleBody) true url outputPath
      speedLimit
    (decide (d.outcome = Outcome.success),
      ⟨match d.path with
        | some p => w.fs.write p d.file
        | none => w.fs,
       w.requests + 1⟩)
  userHomeDir := fun _ => some "/home/user"
  mkdirAll := fun _ w => (true, w)
  join := fun dir name => dir ++ "/" ++ name

/-- The command line `go-wget -O out.bin http://example.com/a.bin`. -/
def sampleArgs : Args :=
  ⟨false, false, "", "", false, Float64.fin 0, "out.bin", "", ["http://example.com/a.bin"]⟩

/-! ## Theorems -/

/-! ### Rounding to float64 -/

theorem roundHalfEven_intCast (n : ℤ) : roundHalfEven (n : ℚ) = n := by
  simp [roundHalfEven]

theorem floor_le_roundHalfEven (x : ℚ) : ⌊x⌋ ≤ roundHalfEven x := by
  unfold roundHalfEven
  split_ifs <;> omega

theorem roundHalfEven_le_floor_succ (x : ℚ) : roundHalfEven x ≤ ⌊x⌋ + 1 := by
  unfold roundHalfEven
  split_ifs <;> omega

theorem roundHalfEven_mono {x y : ℚ} (h : x ≤ y) : roundHalfEven x ≤ roundHalfEven y := by
  have hf : ⌊x⌋ ≤ ⌊y⌋ := Int.floor_mono h
  rcases eq_or_lt_of_le hf with he | hl
  · unfold roundHalfEven
    rw [← he]
    split_ifs <;> first | omega | (exfalso; linarith)
  · calc roundHalfEven x ≤ ⌊x⌋ + 1 := roundHalfEven_le_floor_succ x
      _ ≤ ⌊y⌋ := hl
      _ ≤ roundHalfEven y := floor_le_roundHalfEven y

theorem ulpExp_mono {x y : ℚ} (hx : 0 < x) (h : x ≤ y) : ulpExp x ≤ ulpExp y := by
  unfold ulpExp
  have := Int.log_mono_right (b := 2) hx h
  omega

theorem two_zpow_pos (e : ℤ) : (0 : ℚ) < 2 ^ e := by positivity

theorem roundPos_nonneg {x : ℚ} (hx : 0 ≤ x) : 0 ≤ roundPos x := by
  unfold roundPos
  have h0 : (0 : ℚ) ≤ x / 2 ^ ulpExp x := div_nonneg hx (two_zpow_pos _).le
  have h1 : (0 : ℤ) ≤ roundHalfEven (x / 2 ^ ulpExp x) := by
    have := roundHalfEven_mono h0
    simpa [roundHalfEven] using this
  have h2 : (0 : ℚ) ≤ (roundHalfEven (x / 2 ^ ulpExp x) : ℚ) := by exact_mod_cast h1
  exact mul_nonneg h2 (two_zpow_pos _).le

theorem roundPos_mono {x y : ℚ} (hx : 0 < x) (h : x ≤ y) : roundPos x ≤ roundPos y := by
  have hy : 0 < y := lt_of_lt_of_le hx h
  have he := ulpExp_mono hx h
  rcases eq_or_lt_of_le he with e | l
  · unfold roundPos
    rw [← e]
    have hd : x / 2 ^ ulpExp x ≤ y / 2 ^ ulpExp x :=
      div_le_div_of_nonneg_right h (two_zpow_pos _).le
    have := roundHalfEven_mono hd
    have hc : (roundHalfEven (x / 2 ^ ulpExp x) : ℚ) ≤ roundHalfEven (y / 2 ^ ulpExp x) := by
      exact_mod_cast this
    exact mul_le_mul_of_nonneg_right hc (two_zpow_pos _).le
  · -- different binades: the rounded values are separated by a power of two
    have hey : ulpExp y = Int.log 2 y - 52 := by
      unfold ulpExp at l ⊢
      omega
    have hex : Int.log 2 x - 52 ≤ ulpExp x := le_max_left _ _
    have hxlt : x < 2 ^ (ulpExp x + 53) := by
      have h1 : x < ((2 : ℕ) : ℚ) ^ (Int.log 2 x + 1) := Int.lt_zpow_succ_log_self (by norm_num) x
      have h2 : ((2 : ℕ) : ℚ) ^ (Int.log 2 x + 1) ≤ ((2 : ℕ) : ℚ) ^ (ulpExp x + 53) :=
        zpow_le_zpow_right₀ (by norm_num) (by omega)
      exact_mod_cast lt_of_lt_of_le h1 h2
    have hyge : (2 : ℚ) ^ (ulpExp y + 52) ≤ y := by
      have h1 : ((2 : ℕ) : ℚ) ^ Int.log 2 y ≤ y := Int.zpow_log_le_self (by norm_num) hy
      have h2 : ulpExp y + 52 = Int.log 2 y := by omega
      rw [h2]
      exact_mod_cast h1
    have hxr : roundPos x ≤ 2 ^ (ulpExp x + 53) := by
      unfold roundPos
      have hq : x / 2 ^ ulpExp x ≤ ((2 ^ 53 : ℤ) : ℚ) := by
        rw [div_le_iff₀ (two_zpow_pos _)]
        have : (2 : ℚ) ^ (ulpExp x + 53) = ((2 ^ 53 : ℤ) : ℚ) * 2 ^ ulpExp x := by
          rw [zpow_add₀ (by norm_num), mul_comm]
          norm_num
        linarith
      have := roundHalfEven_mono hq
      rw [roundHalfEven_intCast] at this
      have hc : (roundHalfEven (x / 2 ^ ulpExp x) : ℚ) ≤ ((2 ^ 53 : ℤ) : ℚ) := by exact_mod_cast this
      calc (roundHalfEven (x / 2 ^ ulpExp x) : ℚ) * 2 ^ ulpExp x
          ≤ ((2 ^ 53 : ℤ) : ℚ) * 2 ^ ulpExp x := mul_le_mul_of_nonneg_right hc (two_zpow_pos _).le
        _ = 2 ^ (ulpExp x + 53) := by
          rw [zpow_add₀ (by norm_num), mul_comm]
          norm_num
    have hyr : (2 : ℚ) ^ (ulpExp y + 52) ≤ roundPos y := by
      unfold roundPos
      have hq : ((2 ^ 52 : ℤ) : ℚ) ≤ y / 2 ^ ulpExp y := by
        rw [le_div_iff₀ (two_zpow_pos _)]
        have : (2 : ℚ) ^ (ulpExp y + 52) = ((2 ^ 52 : ℤ) : ℚ) * 2 ^ ulpExp y := by
          rw [zpow_add₀ (by norm_num), mul_comm]
          norm_num
        linarith
      have := roundHalfEven_mono hq
      rw [roundHalfEven_intCast] at this
      have hc : ((2 ^ 52 : ℤ) : ℚ) ≤ (roundHalfEven (y / 2 ^ ulpExp y) : ℚ) := by exact_mod_cast this
      calc (2 : ℚ) ^ (ulpExp y + 52) = ((2 ^ 52 : ℤ) : ℚ) * 2 ^ ulpExp y := by
            rw [zpow_add₀ (by norm_num), mul_comm]
            norm_num
        _ ≤ (roundHalfEven (y / 2 ^ ulpExp y) : ℚ) * 2 ^ ulpExp y :=
            mul_le_mul_of_nonneg_right hc (two_zpow_pos _).le
    have hpw : (2 : ℚ) ^ (ulpExp x + 53) ≤ 2 ^ (ulpExp y + 52) :=
      zpow_le_zpow_right₀ (by norm_num) (by omega)
    linarith

theorem roundPos_exact (m : ℕ) (k : ℤ) (hm0 : 0 < m) (hm : m < 2 ^ 53) (hk : -1074 ≤ k) :
    roundPos ((m : ℚ) * 2 ^ k) = (m : ℚ) * 2 ^ k := by
  have hx : (0 : ℚ) < (m : ℚ) * 2 ^ k := mul_pos (by exact_mod_cast hm0) (two_zpow_pos _)
  have hlt : (m : ℚ) * 2 ^ k < ((2 : ℕ) : ℚ) ^ (k + 53) := by
    have : ((2 : ℕ) : ℚ) ^ (k + 53) = (2 ^ 53 : ℚ) * 2 ^ k := by
      rw [zpow_add₀ (by norm_num), mul_comm]
      norm_num
    rw [this]
    have hm' : (m : ℚ) < 2 ^ 53 := by exact_mod_cast hm
    exact mul_lt_mul_of_pos_right hm' (two_zpow_pos _)
  have hlog : Int.log 2 ((m : ℚ) * 2 ^ k) < k + 53 :=
    (Int.lt_zpow_iff_log_lt (by norm_num) hx).1 hlt
  have he : ulpExp ((m : ℚ) * 2 ^ k) ≤ k := by
    unfold ulpExp
    omega
  obtain ⟨d, hd⟩ := Int.le.dest he
  unfold roundPos
  generalize ulpExp ((m : ℚ) * 2 ^ k) = e at hd
  have hk2 : (2 : ℚ) ^ k = 2 ^ e * 2 ^ d := by
    rw [← hd, zpow_add₀ (by norm_num), zpow_natCast]
  have hq : (m : ℚ) * 2 ^ k / 2 ^ e = (((m : ℤ) * 2 ^ d : ℤ) : ℚ) := by
    rw [hk2]
    have := two_zpow_pos e
    field_simp
    ring
  rw [hq, roundHalfEven_intCast, hk2]
  push_cast
  ring

theorem roundPos_pow_two (k : ℤ) (hk : -1074 ≤ k) : roundPos ((2 : ℚ) ^ k) = 2 ^ k := by
  have := roundPos_exact 1 k (by norm_num) (by norm_num) hk
  simpa using this

theorem roundRat_zero : roundRat 0 = 0 := by
  simp [roundRat]

theorem roundRat_neg (x : ℚ) : roundRat (-x) = -roundRat x := by
  unfold roundRat
  rcases lt_trichotomy x 0 with h | h | h
  · have h1 : ¬ (0 < x) := not_lt.2 h.le
    have h2 : (0 : ℚ) < -x := neg_pos.2 h
    simp [h, h1, h2]
  · subst h
    simp
  · have h1 : ¬ (x < 0) := not_lt.2 h.le
    have h2 : -x < 0 := neg_neg_of_pos h
    simp [h, h1, h2]

theorem roundRat_nonneg {x : ℚ} (hx : 0 ≤ x) : 0 ≤ roundRat x := by
  unfold roundRat
  split_ifs with h1 h2
  · exact roundPos_nonneg hx
  · exact absurd h2 (not_lt.2 hx)
  · exact le_refl 0

theorem roundRat_mono {x y : ℚ} (h : x ≤ y) : roundRat x ≤ roundRat y := by
  rcases lt_trichotomy 0 x with hx | hx | hx
  · have hy : 0 < y := lt_of_lt_of_le hx h
    simpa [roundRat, hx, hy] using roundPos_mono hx h
  · subst hx
    rw [roundRat_zero]
    exact roundRat_nonneg h
  · rcases lt_or_le y 0 with hy | hy
    · have h1 : ¬ (0 < x) := not_lt.2 hx.le
      have h2 : ¬ (0 < y) := not_lt.2 hy.le
      have := roundPos_mono (neg_pos.2 hy) (neg_le_neg h)
      simpa [roundRat, hx, hy, h1, h2] using this
    · have h1 : roundRat x ≤ 0 := by
        have := roundRat_nonneg (neg_pos.2 hx).le
        rw [roundRat_neg] at this
        linarith
      exact le_trans h1 (roundRat_nonneg hy)

theorem roundRat_exact (m k : ℤ) (hm : |m| < 2 ^ 53) (hk : -1074 ≤ k) :
    roundRat ((m : ℚ) * 2 ^ k) = (m : ℚ) * 2 ^ k := by
  rcases lt_trichotomy m 0 with h | h | h
  · have hn : (0 : ℤ) < -m := by omega
    obtain ⟨n, hn2⟩ := Int.eq_ofNat_of_zero_le hn.le
    have hn3 : 0 < n := by omega
    have hn4 : n < 2 ^ 53 := by
      have : |m| = -m := abs_of_neg h
      have h5 : (n : ℤ) < 2 ^ 53 := by omega
      exact_mod_cast h5
    have hx : (m : ℚ) * 2 ^ k = -((n : ℚ) * 2 ^ k) := by
      have : (m : ℚ) = -(n : ℚ) := by
        have : m = -(n : ℤ) := by omega
        rw [this]
        push_cast
        ring
      rw [this]
      ring
    rw [hx, roundRat_neg]
    have hp : (0 : ℚ) < (n : ℚ) * 2 ^ k := mul_pos (by exact_mod_cast hn3) (two_zpow_pos _)
    simp only [roundRat, hp, if_true]
    rw [roundPos_exact n k hn3 hn4 hk]
  · subst h
    simp [roundRat_zero]
  · obtain ⟨n, hn2⟩ := Int.eq_ofNat_of_zero_le h.le
    subst hn2
    have hn3 : 0 < n := by omega
    have hn4 : n < 2 ^ 53 := by
      have : |(n : ℤ)| = n := abs_of_pos h
      have h5 : (n : ℤ) < 2 ^ 53 := by omega
      exact_mod_cast h5
    have hp : (0 : ℚ) < (n : ℚ) * 2 ^ k := mul_pos (by exact_mod_cast hn3) (two_zpow_pos _)
    simp only [Int.cast_natCast, roundRat, hp, if_true]
    exact roundPos_exact n k hn3 hn4 hk

theorem roundRat_int (n : ℤ) (hn : |n| < 2 ^ 53) : roundRat (n : ℚ) = n := by
  have := roundRat_exact n 0 hn (by norm_num)
  simpa using this

theorem ofRat_of_lt {x : ℚ} (h1 : -2 ^ 1024 < roundRat x) (h2 : roundRat x < 2 ^ 1024) :
    Float64.ofRat x = Float64.fin (roundRat x) := by
  unfold Float64.ofRat
  rw [if_neg (not_le.2 h2), if_neg (not_le.2 h1)]

theorem ofRat_exact (m k : ℤ) (hm : |m| < 2 ^ 53) (hk : -1074 ≤ k) (hk2 : k ≤ 900) :
    Float64.ofRat ((m : ℚ) * 2 ^ k) = Float64.fin ((m : ℚ) * 2 ^ k) := by
  have hr := roundRat_exact m k hm hk
  have hb : |(m : ℚ) * 2 ^ k| < 2 ^ 1024 := by
    rw [abs_mul, abs_of_pos (two_zpow_pos k)]
    have h1 : |(m : ℚ)| < 2 ^ 53 := by
      have : ((|m| : ℤ) : ℚ) < ((2 ^ 53 : ℤ) : ℚ) := by exact_mod_cast hm
      simpa using this
    have h2 : (2 : ℚ) ^ k ≤ 2 ^ (900 : ℤ) := zpow_le_zpow_right₀ (by norm_num) hk2
    calc |(m : ℚ)| * 2 ^ k ≤ 2 ^ 53 * 2 ^ (900 : ℤ) :=
          mul_le_mul h1.le h2 (two_zpow_pos k).le (by positivity)
      _ < 2 ^ 1024 := by norm_num
  have hb2 := abs_lt.1 hb
  have := ofRat_of_lt (x := (m : ℚ) * 2 ^ k) (by rw [hr]; exact hb2.1) (by rw [hr]; exact hb2.2)
  rw [this, hr]

theorem ofRat_int (q : ℚ) (n : ℤ) (hq : q = n) (hn : |n| < 2 ^ 53) :
    Float64.ofRat q = Float64.fin q := by
  have := ofRat_exact n 0 hn (by norm_num) (by norm_num)
  simpa [hq] using this

theorem ofInt_small (n : ℤ) (hn : |n| < 2 ^ 53) : Float64.ofInt n = Float64.fin n :=
  ofRat_int n n rfl hn


theorem wrap64_of_range {x : ℤ} (h1 : -2 ^ 63 ≤ x) (h2 : x < 2 ^ 63) : wrap64 x = x := by
  unfold wrap64
  omega

theorem truncRat_int (n : ℤ) : truncRat (n : ℚ) = n := by
  unfold truncRat
  split_ifs <;> simp

/-! ### The percentage of a known total -/

theorem roundRat_one : roundRat 1 = 1 := by
  simpa using roundRat_int 1 (by norm_num)

theorem roundRat_hundred : roundRat 100 = 100 := by
  simpa using roundRat_int 100 (by norm_num)

theorem roundRat_two_pow_63 : roundRat (2 ^ 63) = 2 ^ 63 := by
  have := roundRat_exact 1 63 (by norm_num) (by norm_num)
  have h : ((1 : ℤ) : ℚ) * 2 ^ (63 : ℤ) = 2 ^ 63 := by norm_num
  rwa [h] at this

/-- Conversion of a 64-bit integer never overflows. -/
theorem ofInt_int64 (i : ℤ) (h1 : -2 ^ 63 ≤ i) (h2 : i ≤ 2 ^ 63) :
    Float64.ofInt i = Float64.fin (roundRat i) ∧ -2 ^ 63 ≤ roundRat (i : ℚ) ∧
      roundRat (i : ℚ) ≤ 2 ^ 63 := by
  have hu : roundRat (i : ℚ) ≤ 2 ^ 63 := by
    have : (i : ℚ) ≤ 2 ^ 63 := by exact_mod_cast h2
    have := roundRat_mono this
    rwa [roundRat_two_pow_63] at this
  have hl : -2 ^ 63 ≤ roundRat (i : ℚ) := by
    have : -(2 : ℚ) ^ 63 ≤ (i : ℚ) := by exact_mod_cast h1
    have := roundRat_mono this
    rwa [roundRat_neg, roundRat_two_pow_63] at this
  refine ⟨?_, hl, hu⟩
  unfold Float64.ofInt
  apply ofRat_of_lt
  · have : -(2 : ℚ) ^ 1024 < -2 ^ 63 := by norm_num
    linarith
  · have : (2 : ℚ) ^ 63 < 2 ^ 1024 := by norm_num
    linarith

/-- For a positive total and a count between zero and the total, the percentage is a finite
value between 0 and 100. -/
theorem progressOf_known (d t : ℤ) (hd : 0 ≤ d) (hdt : d ≤ t) (ht : 0 < t) (ht2 : t < 2 ^ 63) :
    ∃ p : ℚ, progressOf d t = Float64.fin p ∧
      p = roundRat (roundRat (roundRat d / roundRat t) * 100) ∧ 0 ≤ p ∧ p ≤ 100 := by
  obtain ⟨hD, -, -⟩ := ofInt_int64 d (by omega) (by omega)
  obtain ⟨hT, -, -⟩ := ofInt_int64 t (by omega) (by omega)
  have hd0 : 0 ≤ roundRat (d : ℚ) := roundRat_nonneg (by exact_mod_cast hd)
  have ht1 : 1 ≤ roundRat (t : ℚ) := by
    have : (1 : ℚ) ≤ (t : ℚ) := by exact_mod_cast ht
    have := roundRat_mono this
    rwa [roundRat_one] at this
  have hdt2 : roundRat (d : ℚ) ≤ roundRat (t : ℚ) := roundRat_mono (by exact_mod_cast hdt)
  have hq0 : 0 ≤ roundRat (d : ℚ) / roundRat (t : ℚ) := div_nonneg hd0 (by linarith)
  have hq1 : roundRat (d : ℚ) / roundRat (t : ℚ) ≤ 1 := by
    rw [div_le_one (by linarith)]
    exact hdt2
  have hr0 : 0 ≤ roundRat (roundRat (d : ℚ) / roundRat (t : ℚ)) := roundRat_nonneg hq0
  have hr1 : roundRat (roundRat (d : ℚ) / roundRat (t : ℚ)) ≤ 1 := by
    have := roundRat_mono hq1
    rwa [roundRat_one] at this
  have hQ : Float64.ofRat (roundRat (d : ℚ) / roundRat (t : ℚ)) =
      Float64.fin (roundRat (roundRat (d : ℚ) / roundRat (t : ℚ))) := by
    apply ofRat_of_lt
    · have : -(2 : ℚ) ^ 1024 < 0 := by norm_num
      linarith
    · have : (1 : ℚ) < 2 ^ 1024 := by norm_num
      linarith
  have hm0 : 0 ≤ roundRat (roundRat (roundRat (d : ℚ) / roundRat (t : ℚ)) * 100) :=
    roundRat_nonneg (by linarith)
  have hm1 : roundRat (roundRat (roundRat (d : ℚ) / roundRat (t : ℚ)) * 100) ≤ 100 := by
    have : roundRat (roundRat (d : ℚ) / roundRat (t : ℚ)) * 100 ≤ 100 := by linarith
    have := roundRat_mono this
    rwa [roundRat_hundred] at this
  have hM : Float64.ofRat (roundRat (roundRat (d : ℚ) / roundRat (t : ℚ)) * 100) =
      Float64.fin (roundRat (roundRat (roundRat (d : ℚ) / roundRat (t : ℚ)) * 100)) := by
    apply ofRat_of_lt
    · have : -(2 : ℚ) ^ 1024 < 0 := by norm_num
      linarith
    · have : (100 : ℚ) < 2 ^ 1024 := by norm_num
      linarith
  refine ⟨_, ?_, rfl, hm0, hm1⟩
  unfold progressOf
  rw [hD, hT]
  have hne : roundRat (t : ℚ) ≠ 0 := by linarith
  simp only [Float64.div, hne, if_false, hQ, Float64.mul, hM]

/-! ### Conversions to `int` and the progress bar -/

theorem truncRat_bounds {p : ℚ} {N : ℤ} (h0 : 0 ≤ p) (h1 : p ≤ N) :
    0 ≤ truncRat p ∧ truncRat p ≤ N := by
  unfold truncRat
  rw [if_pos h0]
  refine ⟨Int.floor_nonneg.2 h0, ?_⟩
  have h2 : ((⌊p⌋ : ℤ) : ℚ) ≤ (N : ℚ) := le_trans (Int.floor_le p) h1
  exact_mod_cast h2

theorem toInt_of_range (impl : Float64 → ℤ) {q : ℚ} (h1 : -2 ^ 63 ≤ truncRat q)
    (h2 : truncRat q < 2 ^ 63) : Float64.toInt impl (Float64.fin q) = truncRat q := by
  unfold Float64.toInt
  simp only []
  rw [if_pos ⟨h1, h2⟩]

theorem toInt_percent (impl : Float64 → ℤ) {p : ℚ} (h0 : 0 ≤ p) (h1 : p ≤ 100) :
    0 ≤ Float64.toInt impl (Float64.fin p) ∧ Float64.toInt impl (Float64.fin p) ≤ 100 := by
  have hb := truncRat_bounds (N := 100) h0 (by exact_mod_cast h1)
  rw [toInt_of_range impl (by linarith [hb.1]) (by linarith [hb.2])]
  exact hb

theorem barStep : Float64.div (Float64.fin 100) (Float64.ofInt progressBarLength) =
    Float64.fin 5 := by
  have h20 : Float64.ofInt progressBarLength = Float64.fin 20 := by
    unfold progressBarLength
    simpa using ofInt_small 20 (by norm_num)
  have h5 : Float64.ofRat (100 / 20) = Float64.fin 5 := by
    have := ofRat_int (100 / 20) 5 (by norm_num) (by norm_num)
    rw [this]; norm_num
  rw [h20]
  simp only [Float64.div]
  rw [if_neg (by norm_num), h5]

theorem roundRat_twenty : roundRat 20 = 20 := by
  simpa using roundRat_int 20 (by norm_num)

theorem blocks_percent (impl : Float64 → ℤ) {p : ℚ} (h0 : 0 ≤ p) (h1 : p ≤ 100) :
    0 ≤ progressBlocksOf impl (Float64.fin p) ∧ progressBlocksOf impl (Float64.fin p) ≤ 20 := by
  have hq0 : 0 ≤ roundRat (p / 5) := roundRat_nonneg (by positivity)
  have hq1 : roundRat (p / 5) ≤ 20 := by
    have : p / 5 ≤ 20 := by linarith
    have := roundRat_mono this
    rwa [roundRat_twenty] at this
  have hQ : Float64.ofRat (p / 5) = Float64.fin (roundRat (p / 5)) := by
    apply ofRat_of_lt
    · have : -(2 : ℚ) ^ 1024 < 0 := by norm_num
      linarith
    · have : (20 : ℚ) < 2 ^ 1024 := by norm_num
      linarith
  have hb := truncRat_bounds (N := 20) hq0 (by exact_mod_cast hq1)
  unfold progressBlocksOf
  rw [barStep]
  simp only [Float64.div]
  rw [if_neg (by norm_num), hQ, toInt_of_range impl (by linarith [hb.1]) (by linarith [hb.2])]
  exact hb

/-- The progress step when the bar length is in range: no panic, the counters advance and a
line is added exactly when the throttle test holds. -/
theorem progressStep_of_blocks (impl : Float64 → ℤ) (cl e : ℤ) (n : ℕ) (s : LoopState)
    (h0 : 0 ≤ progressBlocksOf impl (progressOf (wrap64 (s.downloaded + n)) cl))
    (h1 : progressBlocksOf impl (progressOf (wrap64 (s.downloaded + n)) cl) ≤ 20) :
    ∃ s2, progressStep impl cl e n s = some s2 ∧ s2.file = s.file ∧
      s2.downloaded = wrap64 (s.downloaded + n) ∧ s2.limiter = s.limiter ∧
      s2.lastPercent =
        (if shouldRender impl (progressOf (wrap64 (s.downloaded + n)) cl) s.lastPercent then
          Float64.toInt impl (progressOf (wrap64 (s.downloaded + n)) cl) else s.lastPercent) ∧
      s2.renders.map (fun r => r.progress) =
        s.renders.map (fun r => r.progress) ++
          (if shouldRender impl (progressOf (wrap64 (s.downloaded + n)) cl) s.lastPercent then
            [progressOf (wrap64 (s.downloaded + n)) cl] else []) := by
  have hw : ¬ (progressBlocksOf impl (progressOf (wrap64 (s.downloaded + n)) cl) < 0 ∨
      wrap64 (progressBarLength -
        progressBlocksOf impl (progressOf (wrap64 (s.downloaded + n)) cl)) < 0) := by
    generalize progressBlocksOf impl (progressOf (wrap64 (s.downloaded + n)) cl) = pb at h0 h1
    unfold progressBarLength
    rw [wrap64_of_range (x := 20 - pb) (by linarith) (by linarith)]
    omega
  unfold progressStep
  by_cases hr : shouldRender impl (progressOf (wrap64 (s.downloaded + n)) cl) s.lastPercent = true
  · simp only [hr, if_true]
    rw [if_neg hw]
    exact ⟨_, rfl, rfl, rfl, rfl, rfl, by simp⟩
  · simp only [hr]
    exact ⟨_, rfl, rfl, rfl, rfl, by simp, by simp⟩

/-! ### One pass of the copy loop -/

theorem readerRead_none (body : ReadResult) (s : LoopState) (h : s.limiter = none) :
    readerRead body s = some body := by
  unfold readerRead
  rw [h]

/-- A read through the limiter panics unless the byte count exceeds the burst (and the rate
is not `rate.Inf`): then the read of the body is returned as it is. -/
theorem readerRead_some (body : ReadResult) (s : LoopState) (l : Limiter)
    (h : s.limiter = some l) :
    readerRead body s =
      if l.burst < body.n ∧ l.limit ≠ Float64.fin maxFloat64 then some body else none := by
  unfold readerRead
  rw [h]
  simp only [rateLimitedReader.Read, Limiter.WaitN]
  split_ifs <;> rfl

theorem readerRead_cases (body : ReadResult) (s : LoopState) :
    readerRead body s = none ∨ readerRead body s = some body := by
  cases h : s.limiter with
  | none => exact Or.inr (readerRead_none body s h)
  | some l =>
    rw [readerRead_some body s l h]
    split_ifs
    · exact Or.inr rfl
    · exact Or.inl rfl

theorem loopBody_panic (impl : Float64 → ℤ) (cl : ℤ) (it : Iteration) (s : LoopState)
    (hr : readerRead it.read s = none) :
    loopBody impl cl it s = Pass.done Outcome.crash s := by
  unfold loopBody
  rw [hr]

theorem loopBody_empty (impl : Float64 → ℤ) (cl : ℤ) (it : Iteration) (s : LoopState)
    (hr : readerRead it.read s = some it.read) (hn : it.read.n = 0) :
    loopBody impl cl it s = endOfPass it.read.err s := by
  unfold loopBody
  rw [hr]
  simp only [hn]
  rw [if_neg (by simp [bufferSize]), if_neg (by simp)]

theorem loopBody_bytes (impl : Float64 → ℤ) (cl : ℤ) (it : Iteration) (s : LoopState)
    (hr : readerRead it.read s = some it.read)
    (hn : 0 < it.read.n) (hb : it.read.n ≤ bufferSize) (hw : it.write = WriteResult.ok) :
    loopBody impl cl it s =
      match progressStep impl cl it.elapsedNs it.read.n
          { s with file := s.file ++ it.read.data } with
      | none => Pass.done Outcome.crash { s with file := s.file ++ it.read.data }
      | some s2 => endOfPass it.read.err s2 := by
  unfold loopBody
  rw [hr]
  simp only []
  rw [if_neg (not_lt.2 hb), if_pos hn, hw]
  try rfl

theorem cleanRun_cons (it : Iteration) (rest : List Iteration) (h : cleanRun (it :: rest) = true) :
    it.read.n ≤ bufferSize ∧ it.write = WriteResult.ok ∧
      ((rest = [] ∧ it.read.err = ReadErr.eof) ∨
        (it.read.err = ReadErr.none ∧ cleanRun rest = true)) := by
  cases rest with
  | nil =>
    simp [cleanRun] at h
    exact ⟨h.1.1, h.1.2, Or.inl ⟨rfl, h.2⟩⟩
  | cons a as =>
    rw [cleanRun] at h
    simp at h
    exact ⟨h.1.1, h.1.2, Or.inr ⟨h.2.1, h.2.2⟩⟩

theorem totalBytes_cons (it : Iteration) (rest : List Iteration) :
    totalBytes (it :: rest) = it.read.n + totalBytes rest := by
  simp [totalBytes]

theorem delivered_cons (it : Iteration) (rest : List Iteration) :
    delivered (it :: rest) = it.read.data ++ delivered rest := by
  simp [delivered]

theorem shouldRender_percent (impl : Float64 → ℤ) {p : ℚ} (h0 : 0 ≤ p) (h1 : p ≤ 100)
    {last : ℤ} (hl0 : -5 ≤ last) (hl1 : last ≤ 100) :
    shouldRender impl (Float64.fin p) last =
      decide (5 ≤ Float64.toInt impl (Float64.fin p) - last) := by
  have hb := toInt_percent impl h0 h1
  unfold shouldRender
  rw [wrap64_of_range (x := Float64.toInt impl (Float64.fin p) - last)
    (by linarith [hb.1]) (by linarith [hb.2])]

/-- One pass with bytes, a known total and the count within it: the state after the
progress step. -/
theorem progressStep_known (impl : Float64 → ℤ) (cl e : ℤ) (n : ℕ) (s : LoopState)
    (hcl : cl < 2 ^ 63) (hd : 0 ≤ s.downloaded) (hdn : s.downloaded + n ≤ cl)
    (hn : 0 < n) (hl0 : -5 ≤ s.lastPercent) (hl1 : s.lastPercent ≤ 100) :
    ∃ s2, progressStep impl cl e n s = some s2 ∧ s2.limiter = s.limiter ∧ s2.file = s.file ∧
      s2.downloaded = s.downloaded + n ∧ -5 ≤ s2.lastPercent ∧ s2.lastPercent ≤ 100 ∧
      s2.renders.map (fun r => r.progress) ++
          throttle impl s2.lastPercent [] =
        s.renders.map (fun r => r.progress) ++
          throttle impl s.lastPercent [progressOf (s.downloaded + n) cl] ∧
      ∀ ps, s2.renders.map (fun r => r.progress) ++ throttle impl s2.lastPercent ps =
        s.renders.map (fun r => r.progress) ++
          throttle impl s.lastPercent (progressOf (s.downloaded + n) cl :: ps) := by
  have hn' : (0 : ℤ) < n := by exact_mod_cast hn
  have hw : wrap64 (s.downloaded + n) = s.downloaded + n :=
    wrap64_of_range (by linarith) (by linarith)
  obtain ⟨p, hp, -, hp0, hp1⟩ :=
    progressOf_known (s.downloaded + n) cl (by linarith) hdn (by linarith) hcl
  have hb := blocks_percent impl hp0 hp1
  have hti := toInt_percent impl hp0 hp1
  obtain ⟨s2, h1, h2, h3, hlim, h5, h6⟩ :=
    progressStep_of_blocks impl cl e n s (by rw [hw, hp]; exact hb.1) (by rw [hw, hp]; exact hb.2)
  rw [hw, hp, shouldRender_percent impl hp0 hp1 hl0 hl1] at h5 h6
  have key : ∀ ps, s2.renders.map (fun r => r.progress) ++ throttle impl s2.lastPercent ps =
      s.renders.map (fun r => r.progress) ++
        throttle impl s.lastPercent (progressOf (s.downloaded + n) cl :: ps) := by
    intro ps
    rw [h5, h6, hp]
    by_cases hc : 5 ≤ Float64.toInt impl (Float64.fin p) - s.lastPercent
    · simp [throttle, hc]
    · simp [throttle, hc]
  refine ⟨s2, h1, hlim, h2, by rw [h3, hw], ?_, ?_, key [], key⟩
  · rw [h5]
    split_ifs
    · linarith [hti.1]
    · exact hl0
  · rw [h5]
    split_ifs
    · exact hti.2
    · exact hl1

/-! ### The copy loop with a known total -/

theorem ticks_cons_pos (d : ℤ) (it : Iteration) (rest : List Iteration) (h : 0 < it.read.n) :
    ticks d (it :: rest) = (d + it.read.n) :: ticks (d + it.read.n) rest := by
  simp [ticks, h]

theorem ticks_cons_zero (d : ℤ) (it : Iteration) (rest : List Iteration) (h : it.read.n = 0) :
    ticks d (it :: rest) = ticks d rest := by
  simp [ticks, h]

theorem data_nil_of_n (r : ReadResult) (h : r.n = 0) : r.data = [] := by
  unfold ReadResult.n at h
  exact List.length_eq_zero.1 h

/-- The copy loop on a clean run without limiter, with a known total that the bytes do not
exceed: it ends in success, the file receives the bytes delivered, and the lines printed
follow the throttle. -/
theorem copyLoop_known (impl : Float64 → ℤ) (cl : ℤ) (hcl : cl < 2 ^ 63) :
    ∀ (script : List Iteration) (s : LoopState), s.limiter = none → cleanRun script = true →
      0 ≤ s.downloaded → s.downloaded + totalBytes script ≤ cl →
      -5 ≤ s.lastPercent → s.lastPercent ≤ 100 →
      (copyLoop impl cl script s).1 = Outcome.success ∧
      (copyLoop impl cl script s).2.file = s.file ++ delivered script ∧
      (copyLoop impl cl script s).2.renders.map (fun r => r.progress) =
        s.renders.map (fun r => r.progress) ++
          throttle impl s.lastPercent
            ((ticks s.downloaded script).map (fun d => progressOf d cl)) := by
  intro script
  induction script with
  | nil => intro s _ h; simp [cleanRun] at h
  | cons it rest ih =>
    intro s hlim hc hd hdt hl0 hl1
    obtain ⟨hb, hw, hrest⟩ := cleanRun_cons it rest hc
    rw [totalBytes_cons] at hdt
    push_cast at hdt
    have hrd := readerRead_none it.read s hlim
    have htb : (0 : ℤ) ≤ (totalBytes rest : ℤ) := Int.natCast_nonneg _
    rw [copyLoop]
    rcases Nat.eq_zero_or_pos it.read.n with hn | hn
    · -- a read without bytes
      rw [loopBody_empty impl cl it s hrd hn, delivered_cons, data_nil_of_n _ hn,
        ticks_cons_zero _ _ _ hn]
      rcases hrest with ⟨hr, he⟩ | ⟨he, hcr⟩
      · subst hr
        rw [he]
        simp only [endOfPass, ticks, delivered, List.foldr, List.map,
          throttle, List.append_nil, List.nil_append, and_self]
      · rw [he]
        simp only [endOfPass]
        have := ih s hlim hcr hd (by rw [hn] at hdt; simpa using hdt) hl0 hl1
        simpa using this
    · -- a read with bytes
      rw [loopBody_bytes impl cl it s hrd hn hb hw, delivered_cons, ticks_cons_pos _ _ _ hn]
      obtain ⟨s2, h1, hl2, h2, h3, h4, h5, h6, h7⟩ :=
        progressStep_known impl cl it.elapsedNs it.read.n
          { s with file := s.file ++ it.read.data }
          hcl hd (by simp only []; linarith) hn hl0 hl1
      simp only [] at h2 h3 h6 h7 hl2
      rw [h1]
      simp only []
      rcases hrest with ⟨hr, he⟩ | ⟨he, hcr⟩
      · subst hr
        rw [he]
        simp only [endOfPass, ticks, delivered, List.foldr, List.map, List.append_nil]
        refine ⟨trivial, h2, ?_⟩
        have := h7 []
        simpa [throttle] using this
      · rw [he]
        simp only [endOfPass]
        have := ih s2 (by rw [hl2]; exact hlim) hcr (by rw [h3]; linarith) (by rw [h3]; linarith)
          h4 h5
        rw [h2, h3] at this
        refine ⟨this.1, ?_, ?_⟩
        · rw [this.2.1, List.append_assoc]
        · rw [this.2.2, List.map_cons]
          exact h7 _

/-! ### The copy loop with the total `-1` -/

/-- With the total `-1` the percentage is a finite value at or below `-100`. -/
theorem progressOf_unknown (d : ℤ) (h1 : 1 ≤ d) (h2 : d < 2 ^ 53) :
    ∃ p : ℚ, progressOf d (-1) = Float64.fin p ∧ p ≤ -100 ∧ -(25 * 2 ^ 55) ≤ p := by
  have hD : Float64.ofInt d = Float64.fin d := ofInt_small d (by rw [abs_of_pos (by omega)]; exact h2)
  have hM : Float64.ofInt (-1) = Float64.fin (-1) := by
    simpa using ofInt_small (-1) (by norm_num)
  have hQ : Float64.ofRat ((d : ℚ) / -1) = Float64.fin (-(d : ℚ)) := by
    have := ofRat_int ((d : ℚ) / -1) (-d) (by push_cast; ring)
      (by rw [abs_neg, abs_of_pos (by omega)]; exact h2)
    rw [this]
    congr 1
    ring
  have hd1 : (1 : ℚ) ≤ (d : ℚ) := by exact_mod_cast h1
  have hd2 : (d : ℚ) ≤ 2 ^ 53 := by
    have : (d : ℚ) < ((2 ^ 53 : ℤ) : ℚ) := by exact_mod_cast h2
    have h3 : ((2 ^ 53 : ℤ) : ℚ) = 2 ^ 53 := by norm_num
    linarith
  have hu : roundRat (-(d : ℚ) * 100) ≤ -100 := by
    have : -(d : ℚ) * 100 ≤ -100 := by linarith
    have := roundRat_mono this
    rwa [roundRat_neg, roundRat_hundred] at this
  have hl : -(25 * 2 ^ 55) ≤ roundRat (-(d : ℚ) * 100) := by
    have h3 : -((25 : ℚ) * 2 ^ 55) ≤ -(d : ℚ) * 100 := by
      have : (25 : ℚ) * 2 ^ 55 = 2 ^ 53 * 100 := by norm_num
      linarith
    have := roundRat_mono h3
    have h4 : roundRat ((25 : ℚ) * 2 ^ 55) = 25 * 2 ^ 55 := by
      have := roundRat_exact 25 55 (by norm_num) (by norm_num)
      have h5 : ((25 : ℤ) : ℚ) * 2 ^ (55 : ℤ) = 25 * 2 ^ 55 := by norm_num
      rwa [h5] at this
    rwa [roundRat_neg, h4] at this
  have hP : Float64.ofRat (-(d : ℚ) * 100) = Float64.fin (roundRat (-(d : ℚ) * 100)) := by
    apply ofRat_of_lt
    · have : -(2 : ℚ) ^ 1024 < -(25 * 2 ^ 55) := by norm_num
      linarith
    · have : (-100 : ℚ) < 2 ^ 1024 := by norm_num
      linarith
  refine ⟨_, ?_, hu, hl⟩
  unfold progressOf
  rw [hD, hM]
  simp only [Float64.div]
  rw [if_neg (by norm_num), hQ]
  simp only [Float64.mul, hP]

/-- With the total `-1` the throttle test fails after every read, before any line was
printed. -/
theorem shouldRender_unknown (impl : Float64 → ℤ) (d : ℤ) (h1 : 1 ≤ d) (h2 : d < 2 ^ 53) :
    shouldRender impl (progressOf d (-1)) (-5) = false := by
  obtain ⟨p, hp, hp1, hp2⟩ := progressOf_unknown d h1 h2
  have hneg : ¬ (0 ≤ p) := by linarith
  have ht : truncRat p = ⌈p⌉ := by
    unfold truncRat
    rw [if_neg hneg]
  have hc1 : ⌈p⌉ ≤ -100 := by
    rw [Int.ceil_le]
    exact_mod_cast hp1
  have hc2 : -(25 * 2 ^ 55) ≤ ⌈p⌉ := by
    have h3 : (((-(25 * 2 ^ 55) : ℤ)) : ℚ) ≤ p := by
      have h5 : (((-(25 * 2 ^ 55) : ℤ)) : ℚ) = -(25 * 2 ^ 55) := by norm_num
      rw [h5]
      exact hp2
    have h4 : (((-(25 * 2 ^ 55) : ℤ)) : ℚ) ≤ ((⌈p⌉ : ℤ) : ℚ) := le_trans h3 (Int.le_ceil p)
    exact_mod_cast h4
  rw [hp]
  unfold shouldRender
  rw [toInt_of_range impl (by rw [ht]; linarith) (by rw [ht]; linarith), ht,
    wrap64_of_range (x := ⌈p⌉ - -5) (by linarith) (by linarith)]
  simp only [decide_eq_false_iff_not, not_le]
  linarith

theorem progressStep_unknown (impl : Float64 → ℤ) (e : ℤ) (n : ℕ) (s : LoopState)
    (hl : s.lastPercent = -5) (hd : 0 ≤ s.downloaded) (hdn : s.downloaded + n < 2 ^ 53)
    (hn : 0 < n) :
    progressStep impl (-1) e n s = some { s with downloaded := s.downloaded + n } := by
  have hn' : (0 : ℤ) < n := by exact_mod_cast hn
  have hw : wrap64 (s.downloaded + n) = s.downloaded + n :=
    wrap64_of_range (by linarith) (by linarith)
  have hr := shouldRender_unknown impl (s.downloaded + n) (by linarith) hdn
  unfold progressStep
  simp only [hw, hl, hr]
  rfl

/-- One pass of the loop with the total `-1`: whatever the read and the write return, no
line is printed, and when the loop goes on the counters are those of a run that never
printed. -/
theorem loopBody_unknown (impl : Float64 → ℤ) (it : Iteration) (s : LoopState)
    (hl : s.lastPercent = -5) (hd : 0 ≤ s.downloaded)
    (hdn : s.downloaded + it.read.n < 2 ^ 53) :
    match loopBody impl (-1) it s with
    | Pass.done _ s1 => s1.renders = s.renders
    | Pass.next s1 => s1.renders = s.renders ∧ s1.lastPercent = -5 ∧
        s1.downloaded = s.downloaded + it.read.n ∧ s1.limiter = s.limiter := by
  rcases readerRead_cases it.read s with hr | hr
  · rw [loopBody_panic impl (-1) it s hr]
  · rcases Nat.eq_zero_or_pos it.read.n with hn | hn
    · rw [loopBody_empty impl (-1) it s hr hn, hn]
      cases it.read.err <;> simp [endOfPass, hl]
    · unfold loopBody
      rw [hr]
      simp only []
      by_cases hb : bufferSize < it.read.n
      · rw [if_pos hb]
      · rw [if_neg hb, if_pos hn]
        cases it.write with
        | fail k => rfl
        | ok =>
          simp only []
          rw [progressStep_unknown impl it.elapsedNs it.read.n _ (by simp only [hl])
            (by simp only []; exact hd) (by simp only []; exact hdn) hn]
          cases it.read.err <;> simp [endOfPass, hl]

/-- With the total `-1` the copy loop prints no progress line, however the run goes. -/
theorem copyLoop_unknown_renders (impl : Float64 → ℤ) :
    ∀ (script : List Iteration) (s : LoopState), s.lastPercent = -5 → 0 ≤ s.downloaded →
      s.downloaded + totalBytes script < 2 ^ 53 →
      (copyLoop impl (-1) script s).2.renders = s.renders := by
  intro script
  induction script with
  | nil => intro s _ _ _; rfl
  | cons it rest ih =>
    intro s hl hd hdt
    rw [totalBytes_cons] at hdt
    push_cast at hdt
    have htb : (0 : ℤ) ≤ (totalBytes rest : ℤ) := Int.natCast_nonneg _
    have hnn : (0 : ℤ) ≤ (it.read.n : ℤ) := Int.natCast_nonneg _
    have hb := loopBody_unknown impl it s hl hd (by linarith)
    rw [copyLoop]
    cases hlb : loopBody impl (-1) it s with
    | done o s1 =>
      rw [hlb] at hb
      exact hb
    | next s1 =>
      rw [hlb] at hb
      simp only []
      rw [ih s1 hb.2.1 (by rw [hb.2.2.1]; linarith) (by rw [hb.2.2.1]; linarith)]
      exact hb.1

/-- With the total `-1` a clean run without limiter ends in success with the bytes delivered
in the file. -/
theorem copyLoop_unknown (impl : Float64 → ℤ) :
    ∀ (script : List Iteration) (s : LoopState), s.limiter = none → cleanRun script = true →
      s.lastPercent = -5 → 0 ≤ s.downloaded → s.downloaded + totalBytes script < 2 ^ 53 →
      (copyLoop impl (-1) script s).1 = Outcome.success ∧
      (copyLoop impl (-1) script s).2.file = s.file ++ delivered script := by
  intro script
  induction script with
  | nil => intro s _ h; simp [cleanRun] at h
  | cons it rest ih =>
    intro s hlim hc hl hd hdt
    obtain ⟨hb, hw, hrest⟩ := cleanRun_cons it rest hc
    rw [totalBytes_cons] at hdt
    push_cast at hdt
    have hrd := readerRead_none it.read s hlim
    have htb : (0 : ℤ) ≤ (totalBytes rest : ℤ) := Int.natCast_nonneg _
    rw [copyLoop, delivered_cons]
    rcases Nat.eq_zero_or_pos it.read.n with hn | hn
    · rw [loopBody_empty impl (-1) it s hrd hn, data_nil_of_n _ hn]
      rcases hrest with ⟨hr, he⟩ | ⟨he, hcr⟩
      · subst hr
        rw [he]
        simp [endOfPass, delivered]
      · rw [he]
        simp only [endOfPass]
        have := ih s hlim hcr hl hd (by rw [hn] at hdt; simpa using hdt)
        simpa using this
    · have hn' : (0 : ℤ) < (it.read.n : ℤ) := by exact_mod_cast hn
      rw [loopBody_bytes impl (-1) it s hrd hn hb hw,
        progressStep_unknown impl it.elapsedNs it.read.n _ (by simp only [hl])
          (by simp only []; exact hd) (by simp only []; linarith) hn]
      simp only []
      rcases hrest with ⟨hr, he⟩ | ⟨he, hcr⟩
      · subst hr
        rw [he]
        simp [endOfPass, delivered]
      · rw [he]
        simp only [endOfPass]
        have := ih { s with
            file := s.file ++ it.read.data
            downloaded := s.downloaded + it.read.n } hlim hcr
          (by simp only [hl]) (by simp only []; linarith)
          (by simp only []; linarith)
        refine ⟨this.1, ?_⟩
        rw [this.2]
        simp only [List.append_assoc]

/-! ### Values on the sample runs -/

theorem ofRat_dyadic (q : ℚ) (m k : ℤ) (hq : q = (m : ℚ) * 2 ^ k) (hm : |m| < 2 ^ 53)
    (hk : -1074 ≤ k) (hk2 : k ≤ 900) : Float64.ofRat q = Float64.fin q := by
  rw [hq]
  exact ofRat_exact m k hm hk hk2

theorem progressOf_20_10 : progressOf 20 10 = Float64.fin 200 := by
  have h20 : Float64.ofInt 20 = Float64.fin 20 := by
    simpa using ofInt_small 20 (by norm_num)
  have h10 : Float64.ofInt 10 = Float64.fin 10 := by
    simpa using ofInt_small 10 (by norm_num)
  have h2 : Float64.ofRat (20 / 10) = Float64.fin 2 := by
    have := ofRat_int (20 / 10) 2 (by norm_num) (by norm_num)
    rw [this]; norm_num
  have h200 : Float64.ofRat (2 * 100) = Float64.fin 200 := by
    have := ofRat_int (2 * 100) 200 (by norm_num) (by norm_num)
    rw [this]; norm_num
  unfold progressOf
  rw [h20, h10]
  simp only [Float64.div]
  rw [if_neg (by norm_num), h2]
  simp only [Float64.mul]
  rw [h200]

theorem toInt_int (impl : Float64 → ℤ) (q : ℚ) (n : ℤ) (hq : q = n) (h1 : -2 ^ 63 ≤ n)
    (h2 : n < 2 ^ 63) : Float64.toInt impl (Float64.fin q) = n := by
  have : truncRat q = n := by rw [hq]; exact truncRat_int n
  rw [toInt_of_range impl (by rw [this]; exact h1) (by rw [this]; exact h2), this]

theorem blocks_200 (impl : Float64 → ℤ) : progressBlocksOf impl (Float64.fin 200) = 40 := by
  have h40 : Float64.ofRat (200 / 5) = Float64.fin 40 := by
    have := ofRat_int (200 / 5) 40 (by norm_num) (by norm_num)
    rw [this]; norm_num
  unfold progressBlocksOf
  rw [barStep]
  simp only [Float64.div]
  rw [if_neg (by norm_num), h40]
  exact toInt_int impl 40 40 (by norm_num) (by norm_num) (by norm_num)

theorem progressStep_crash (impl : Float64 → ℤ) (e : ℤ) (s : LoopState)
    (hd : s.downloaded = 0) (hl : s.lastPercent = -5) :
    progressStep impl 10 e 20 s = none := by
  have hw : wrap64 (s.downloaded + ((20 : ℕ) : ℤ)) = 20 := by
    rw [hd]; exact wrap64_of_range (by norm_num) (by norm_num)
  have hr : shouldRender impl (Float64.fin 200) s.lastPercent = true := by
    rw [hl]
    unfold shouldRender
    rw [toInt_int impl 200 200 (by norm_num) (by norm_num) (by norm_num),
      wrap64_of_range (by norm_num) (by norm_num)]
    decide
  have hb : wrap64 (progressBarLength - 40) < 0 := by
    unfold progressBarLength
    rw [wrap64_of_range (by norm_num) (by norm_num)]
    norm_num
  unfold progressStep
  simp only [hw, progressOf_20_10, hr, blocks_200, if_true]
  rw [if_pos (Or.inr hb)]

theorem copyLoop_short_length (impl : Float64 → ℤ) (e : ℤ) :
    copyLoop impl 10 [shortLengthPass e] ⟨[], 0, -5, [], none⟩ =
      (Outcome.crash, ⟨List.replicate 20 0, 0, -5, [], none⟩) := by
  have hn : (shortLengthPass e).read.n = 20 := by
    simp [shortLengthPass, ReadResult.n]
  rw [copyLoop, loopBody_bytes impl 10 _ _ (readerRead_none _ _ rfl) (by rw [hn]; norm_num)
    (by rw [hn]; simp [bufferSize]) rfl, hn,
    progressStep_crash impl _ _ rfl rfl]
  rfl

/-! ### The limiter -/

theorem newLimiter_of_not_pos (impl : Float64 → ℤ) (speedLimit : Float64)
    (h : speedLimit.isPos = false) : newLimiter impl speedLimit = none := by
  simp [newLimiter, h]

theorem newLimiter_zero (impl : Float64 → ℤ) : newLimiter impl (Float64.fin 0) = none := by
  simp [newLimiter, Float64.isPos]

/-- The limiter of `-limit 1`: 1024 tokens per second and a burst of 1024. -/
theorem newLimiter_one (impl : Float64 → ℤ) :
    newLimiter impl (Float64.fin 1) = some ⟨Float64.fin 1024, 1024⟩ := by
  have hm : Float64.mul (Float64.fin 1) (Float64.fin 1024) = Float64.fin 1024 := by
    have := ofRat_int (1 * 1024) 1024 (by norm_num) (by norm_num)
    simp only [Float64.mul]
    rw [this]; norm_num
  have hp : (Float64.fin 1).isPos = true := by
    simp [Float64.isPos]
  unfold newLimiter
  rw [if_pos hp, hm, toInt_int impl 1024 1024 (by norm_num) (by norm_num) (by norm_num)]
  rfl

/-- A read of three bytes through the limiter of `-limit 1` panics. -/
theorem readerRead_limit_one (data : List UInt8) (err : ReadErr) (hn : data.length ≤ 1024)
    (s : LoopState) (h : s.limiter = some ⟨Float64.fin 1024, 1024⟩) :
    readerRead ⟨data, err⟩ s = none := by
  rw [readerRead_some _ s _ h, if_neg]
  intro hc
  have h1 := hc.1
  simp only [ReadResult.n] at h1
  have h2 : ((data.length : ℕ) : ℤ) ≤ 1024 := by exact_mod_cast hn
  linarith

/-- The copy loop ends at a first pass whose read panics: nothing was written. -/
theorem copyLoop_panic (impl : Float64 → ℤ) (cl : ℤ) (it : Iteration) (rest : List Iteration)
    (s : LoopState) (hr : readerRead it.read s = none) :
    copyLoop impl cl (it :: rest) s = (Outcome.crash, s) := by
  rw [copyLoop, loopBody_panic impl cl it s hr]

/-! ### `downloadFile` and `rateLimitedReader.Read` -/

theorem downloadFile_ok (impl : Float64 → ℤ) (cl : ℤ) (body : List Iteration)
    (url outputPath : String) (speedLimit : Float64) :
    downloadFile impl (GetResult.response 200 cl body) true url outputPath speedLimit =
      ⟨(copyLoop impl cl body ⟨[], 0, -5, [], newLimiter impl speedLimit⟩).1,
        some (if outputPath = "" then pathBase url else outputPath),
        (copyLoop impl cl body ⟨[], 0, -5, [], newLimiter impl speedLimit⟩).2.file,
        (copyLoop impl cl body ⟨[], 0, -5, [], newLimiter impl speedLimit⟩).2.renders,
        (copyLoop impl cl body ⟨[], 0, -5, [], newLimiter impl speedLimit⟩).2.limiter⟩ := by
  unfold downloadFile
  simp only [ne_eq, not_true_eq_false, if_false, Bool.true_eq_false]

theorem delivered_length (script : List Iteration) :
    (delivered script).length = totalBytes script := by
  induction script with
  | nil => rfl
  | cons it rest ih =>
    rw [delivered_cons, totalBytes_cons, List.length_append, ih]
    rfl

/-- The download of a clean run without limiter, the declared length being `-1` or not
smaller than the bytes delivered. -/
theorem downloadFile_clean (impl : Float64 → ℤ) (cl : ℤ) (script : List Iteration)
    (url outputPath : String) (speedLimit : Float64) (hs : speedLimit.isPos = false)
    (hc : cleanRun script = true)
    (h : (cl = -1 ∧ totalBytes script < 2 ^ 53) ∨
      (cl < 2 ^ 63 ∧ (totalBytes script : ℤ) ≤ cl)) :
    (downloadFile impl (GetResult.response 200 cl script) true url outputPath
        speedLimit).outcome = Outcome.success ∧
      (downloadFile impl (GetResult.response 200 cl script) true url outputPath
        speedLimit).file = delivered script ∧
      (downloadFile impl (GetResult.response 200 cl script) true url outputPath
        speedLimit).path = some (if outputPath = "" then pathBase url else outputPath) := by
  rw [downloadFile_ok, newLimiter_of_not_pos impl speedLimit hs]
  simp only []
  rcases h with ⟨h1, h2⟩ | ⟨h1, h2⟩
  · subst h1
    have h4 : ((totalBytes script : ℕ) : ℤ) < 2 ^ 53 := by exact_mod_cast h2
    have key := copyLoop_unknown impl script ⟨[], 0, -5, [], none⟩ rfl hc rfl
      (le_refl 0) (by simpa using h4)
    exact ⟨key.1, by simpa using key.2, trivial⟩
  · have key := copyLoop_known impl cl h1 script ⟨[], 0, -5, [], none⟩ rfl hc
      (le_refl 0) (by simpa using h2) (le_refl _) (by norm_num)
    exact ⟨key.1, by simpa using key.2.1, trivial⟩

/-- Under `-limit 1` a download whose first read returns at most 1024 bytes panics in that
read: nothing is written and nothing printed. -/
theorem downloadFile_limit_one (impl : Float64 → ℤ) (cl : ℤ) (it : Iteration)
    (rest : List Iteration) (url outputPath : String) (hn : it.read.n ≤ 1024) :
    (downloadFile impl (GetResult.response 200 cl (it :: rest)) true url outputPath
        (Float64.fin 1)).outcome = Outcome.crash ∧
      (downloadFile impl (GetResult.response 200 cl (it :: rest)) true url outputPath
        (Float64.fin 1)).file = [] ∧
      (downloadFile impl (GetResult.response 200 cl (it :: rest)) true url outputPath
        (Float64.fin 1)).renders = [] := by
  rw [downloadFile_ok, newLimiter_one,
    copyLoop_panic impl cl it rest _ (readerRead_limit_one it.read.data it.read.err hn _ rfl)]
  exact ⟨rfl, rfl, rfl⟩

/-- C1, failing input: `-limit 1` and a response of status 200 that declares three bytes and
delivers them in one read together with end-of-stream, the file being created. The limiter
`downloadFile` installs has a burst of 1024, and the first `Read` panics in
`WaitN(nil, 3)`: `downloadFile` does not return success, and the file it created holds no
byte. So does every download under `-limit 1` whose first read returns at most 1024 bytes.
Without limit the same response is copied: success, the file holding the three bytes. -/
theorem downloadFile_limit_panics :
    (downloadFile implZero (GetResult.response 200 3 sampleBody) true
        "http://example.com/a.bin" "" (Float64.fin 1)).outcome = Outcome.crash ∧
      (downloadFile implZero (GetResult.response 200 3 sampleBody) true
        "http://example.com/a.bin" "" (Float64.fin 1)).file = [] ∧
      (downloadFile implZero (GetResult.response 200 3 sampleBody) true
        "http://example.com/a.bin" "" (Float64.fin 1)).path = some "a.bin" ∧
      delivered sampleBody = [1, 2, 3] ∧ cleanRun sampleBody = true ∧
      (downloadFile implZero (GetResult.response 200 3 sampleBody) true
        "http://example.com/a.bin" "" (Float64.fin 0)).outcome = Outcome.success ∧
      (downloadFile implZero (GetResult.response 200 3 sampleBody) true
        "http://example.com/a.bin" "" (Float64.fin 0)).file = [1, 2, 3] ∧
      (∀ (impl : Float64 → ℤ) (cl : ℤ) (it : Iteration) (rest : List Iteration)
          (url outputPath : String), it.read.n ≤ 1024 →
        (downloadFile impl (GetResult.response 200 cl (it :: rest)) true url outputPath
            (Float64.fin 1)).outcome = Outcome.crash ∧
          (downloadFile impl (GetResult.response 200 cl (it :: rest)) true url outputPath
            (Float64.fin 1)).file = []) := by
  have h1 := downloadFile_limit_one implZero 3 ⟨⟨[1, 2, 3], ReadErr.eof⟩, WriteResult.ok,
    1000000000⟩ [] "http://example.com/a.bin" "" (by decide)
  have h0 := downloadFile_clean implZero 3 sampleBody "http://example.com/a.bin" ""
    (Float64.fin 0) (by simp [Float64.isPos]) (by decide) (Or.inr ⟨by norm_num, by decide⟩)
  refine ⟨h1.1, h1.2.1, ?_, by decide, by decide, h0.1, h0.2.1, ?_⟩
  · rw [downloadFile_ok]
    decide
  · intro impl cl it rest url outputPath hn
    exact ⟨(downloadFile_limit_one impl cl it rest url outputPath hn).1,
      (downloadFile_limit_one impl cl it rest url outputPath hn).2.1⟩

/-- C2, failing input: the limiter of `-limit 1` (1024 tokens per second, burst 1024) and an
underlying read that returns three bytes. `rateLimitedReader.Read` does not return: after
the underlying read, `WaitN(nil, 3)` panics on the nil context. In general `Read` returns,
with the result of the underlying read, only when the byte count exceeds the burst (and the
rate is not `rate.Inf`), and then `WaitN` has returned an error at once: no call takes a
token or waits. With a speed limit of zero `downloadFile` installs no limiter, and every read
of its loop is the read of the response body. -/
theorem rateLimitedReader_panics :
    newLimiter implZero (Float64.fin 1) = some ⟨Float64.fin 1024, 1024⟩ ∧
      rateLimitedReader.Read (fun (_ : Unit) _ => (⟨[1, 2, 3], ReadErr.none⟩, ()))
        ⟨(), ⟨Float64.fin 1024, 1024⟩⟩ (List.replicate bufferSize 0) = none ∧
      (∀ (σ : Type) (under : ReadFn σ) (r : rateLimitedReader σ) (p : List UInt8),
        rateLimitedReader.Read under r p =
          if r.limiter.burst < (under r.reader p).1.n ∧
              r.limiter.limit ≠ Float64.fin maxFloat64 then
            some ((under r.reader p).1, ⟨(under r.reader p).2, r.limiter⟩)
          else none) ∧
      (∀ (l : Limiter) (n : ℕ), (n : ℤ) ≤ l.burst → l.WaitN n = WaitResult.panic) ∧
      (∀ impl, newLimiter impl (Float64.fin 0) = none) ∧
      (∀ impl body file downloaded lastPercent renders,
        readerRead body ⟨file, downloaded, lastPercent, renders,
            newLimiter impl (Float64.fin 0)⟩ = some body) := by
  refine ⟨newLimiter_one implZero, ?_, ?_, ?_, newLimiter_zero, ?_⟩
  · simp only [rateLimitedReader.Read, Limiter.WaitN, ReadResult.n]
    rw [if_neg (by intro hc; have := hc.1; simp at this)]
  · intro σ under r p
    simp only [rateLimitedReader.Read, Limiter.WaitN]
    split_ifs <;> rfl
  · intro l n hn
    simp only [Limiter.WaitN]
    rw [if_neg (by intro hc; linarith [hc.1])]
  · intro impl body file downloaded lastPercent renders
    rw [newLimiter_zero]
    rfl

/-! ### The progress computation without a total -/

theorem progressOf_one_unknown : progressOf 1 (-1) = Float64.fin (-100) := by
  have h1 : Float64.ofInt 1 = Float64.fin 1 := by
    simpa using ofInt_small 1 (by norm_num)
  have hm : Float64.ofInt (-1) = Float64.fin (-1) := by
    simpa using ofInt_small (-1) (by norm_num)
  have hq : Float64.ofRat (1 / -1) = Float64.fin (-1) := by
    have := ofRat_int (1 / -1) (-1) (by norm_num) (by norm_num)
    rw [this]; norm_num
  have hp : Float64.ofRat (-1 * 100) = Float64.fin (-100) := by
    have := ofRat_int (-1 * 100) (-100) (by norm_num) (by norm_num)
    rw [this]; norm_num
  unfold progressOf
  rw [h1, hm]
  simp only [Float64.div]
  rw [if_neg (by norm_num), hq]
  simp only [Float64.mul]
  rw [hp]

theorem progressOf_zero_total (d : ℤ) (h1 : 1 ≤ d) (h2 : d < 2 ^ 63) :
    progressOf d 0 = Float64.posInf := by
  obtain ⟨hD, -, -⟩ := ofInt_int64 d (by omega) (by omega)
  have h0 : Float64.ofInt 0 = Float64.fin 0 := by
    simpa using ofInt_small 0 (by norm_num)
  have hpos : 0 < roundRat (d : ℚ) := by
    have : (1 : ℚ) ≤ (d : ℚ) := by exact_mod_cast h1
    have := roundRat_mono this
    rw [roundRat_one] at this
    linarith
  unfold progressOf
  rw [hD, h0]
  simp only [Float64.div, if_true]
  rw [if_neg (by linarith), if_pos hpos]
  simp only [Float64.mul]
  rw [if_neg (by norm_num), if_pos (by norm_num)]

theorem seconds_one : seconds 1000000000 = Float64.fin 1 := by
  have hd : Int.tdiv 1000000000 1000000000 = 1 := by decide
  have hm : Int.tmod 1000000000 1000000000 = 0 := by decide
  have h1 : Float64.ofInt 1 = Float64.fin 1 := by
    simpa using ofInt_small 1 (by norm_num)
  have h0 : Float64.ofInt 0 = Float64.fin 0 := by
    simpa using ofInt_small 0 (by norm_num)
  have hq : Float64.ofRat (0 / 1000000000) = Float64.fin 0 := by
    have := ofRat_int (0 / 1000000000) 0 (by norm_num) (by norm_num)
    rw [this]; norm_num
  have hs : Float64.ofRat (1 + 0) = Float64.fin 1 := by
    have := ofRat_int (1 + 0) 1 (by norm_num) (by norm_num)
    rw [this]; norm_num
  unfold seconds
  rw [hd, hm, h1, h0]
  simp only [Float64.div]
  rw [if_neg (by norm_num), hq]
  simp only [Float64.add]
  rw [hs]

theorem remainingTime_one_unknown :
    remainingTimeOf 1 (-1) 1000000000 = Float64.fin (-2) := by
  have hw : wrap64 (-1 - 1) = -2 := wrap64_of_range (by norm_num) (by norm_num)
  have h1 : Float64.ofInt 1 = Float64.fin 1 := by
    simpa using ofInt_small 1 (by norm_num)
  have h2 : Float64.ofInt (-2) = Float64.fin (-2) := by
    simpa using ofInt_small (-2) (by norm_num)
  have hq : Float64.ofRat (1 / 1) = Float64.fin 1 := by
    have := ofRat_int (1 / 1) 1 (by norm_num) (by norm_num)
    rw [this]; norm_num
  have hr : Float64.ofRat (-2 / 1) = Float64.fin (-2) := by
    have := ofRat_int (-2 / 1) (-2) (by norm_num) (by norm_num)
    rw [this]; norm_num
  unfold remainingTimeOf
  rw [hw, seconds_one, h1, h2]
  simp only [Float64.div]
  rw [if_neg (by norm_num), hq]
  simp only []
  rw [if_neg (by norm_num), hr]

/-- C3, counterexample: with the total `-1` and one byte transferred in one second the code
divides by the total and computes the percentage `-100` and the remaining time `-2` seconds;
with the total `0` it computes the percentage `+Inf`. -/
theorem unknown_total_is_computed :
    progressOf 1 (-1) = Float64.fin (-100) ∧
      remainingTimeOf 1 (-1) 1000000000 = Float64.fin (-2) ∧
      progressOf 1 0 = Float64.posInf :=
  ⟨progressOf_one_unknown, remainingTime_one_unknown,
    progressOf_zero_total 1 (by norm_num) (by norm_num)⟩

/-- C3, amended: the percentage is computed by the division whatever the total. With the
total `-1` and `d` bytes transferred (`1 ≤ d < 2 ^ 53`) it is a finite value at or below
`-100`, with the total `0` it is `+Inf`; with the total `-1` the throttle test fails at
every tick, so a download of fewer than `2 ^ 53` bytes prints no progress line. -/
theorem unknown_total_never_rendered (impl : Float64 → ℤ) (d : ℤ) (script : List Iteration)
    (url outputPath : String) (speedLimit : Float64)
    (h1 : 1 ≤ d) (h2 : d < 2 ^ 53) (h3 : totalBytes script < 2 ^ 53) :
    (∃ p : ℚ, progressOf d (-1) = Float64.fin p ∧ p ≤ -100) ∧
      progressOf d 0 = Float64.posInf ∧
      shouldRender impl (progressOf d (-1)) (-5) = false ∧
      (downloadFile impl (GetResult.response 200 (-1) script) true url outputPath
        speedLimit).renders = [] := by
  obtain ⟨p, hp, hp1, -⟩ := progressOf_unknown d h1 h2
  refine ⟨⟨p, hp, hp1⟩, progressOf_zero_total d h1 (by linarith),
    shouldRender_unknown impl d h1 h2, ?_⟩
  rw [downloadFile_ok]
  simp only []
  have h4 : ((totalBytes script : ℕ) : ℤ) < 2 ^ 53 := by exact_mod_cast h3
  exact copyLoop_unknown_renders impl script _ rfl (le_refl 0) (by simpa using h4)

/-- C3, witness: one byte against the total `-1`. -/
theorem unknown_total_never_rendered_witness :
    (∃ p : ℚ, progressOf 1 (-1) = Float64.fin p ∧ p ≤ -100) ∧
      progressOf 1 0 = Float64.posInf ∧
      shouldRender implZero (progressOf 1 (-1)) (-5) = false ∧
      (downloadFile implZero (GetResult.response 200 (-1) [oneBytePass]) true
        "http://example.com/a.bin" "" (Float64.fin 0)).renders = [] :=
  unknown_total_never_rendered implZero 1 [oneBytePass] "http://example.com/a.bin" ""
    (Float64.fin 0) (by norm_num) (by norm_num) (by decide)

/-! ### The throttle -/

theorem ticks_head (script : List Iteration) :
    ∀ (d0 d : ℤ) (ds : List ℤ), ticks d0 script = d :: ds →
      d0 < d ∧ d ≤ d0 + totalBytes script := by
  induction script with
  | nil => intro d0 d ds h; simp [ticks] at h
  | cons it rest ih =>
    intro d0 d ds h
    rw [totalBytes_cons]
    push_cast
    have htb : (0 : ℤ) ≤ (totalBytes rest : ℤ) := Int.natCast_nonneg _
    rcases Nat.eq_zero_or_pos it.read.n with hn | hn
    · rw [ticks_cons_zero _ _ _ hn] at h
      have := ih d0 d ds h
      rw [hn]
      simpa using this
    · rw [ticks_cons_pos _ _ _ hn] at h
      have hn' : (0 : ℤ) < (it.read.n : ℤ) := by exact_mod_cast hn
      injection h with h1 h2
      constructor <;> linarith

/-- C4, amended: on a run without speed limit (`speedLimit > 0` is false, so no limiter is
installed) that delivers the body cleanly and no more bytes than the declared total, the
progress lines are exactly those the throttle picks among the percentages of the ticks,
comparing whole parts (each `int(progress)` against the `int(progress)` of the last line
printed, `-5` before the first); in particular the first tick prints a line. -/
theorem throttle_known_total (impl : Float64 → ℤ) (cl : ℤ) (script : List Iteration)
    (url outputPath : String) (speedLimit : Float64) (hs : speedLimit.isPos = false)
    (hc : cleanRun script = true) (h1 : cl < 2 ^ 63) (h2 : (totalBytes script : ℤ) ≤ cl) :
    (downloadFile impl (GetResult.response 200 cl script) true url outputPath
        speedLimit).renders.map (fun r => r.progress) =
      throttle impl (-5) ((ticks 0 script).map (fun d => progressOf d cl)) ∧
    ∀ d ds, ticks 0 script = d :: ds →
      ∃ rs, (downloadFile impl (GetResult.response 200 cl script) true url outputPath
        speedLimit).renders.map (fun r => r.progress) = progressOf d cl :: rs := by
  have key := (copyLoop_known impl cl h1 script ⟨[], 0, -5, [], none⟩ rfl hc
    (le_refl 0) (by simpa using h2) (le_refl _) (by norm_num)).2.2
  rw [downloadFile_ok, newLimiter_of_not_pos impl speedLimit hs]
  simp only [List.map_nil, List.nil_append] at key ⊢
  refine ⟨key, ?_⟩
  intro d ds hd
  obtain ⟨hd1, hd2⟩ := ticks_head script 0 d ds hd
  obtain ⟨p, hp, -, hp0, hp1⟩ := progressOf_known d cl (by linarith) (by linarith) (by linarith) h1
  have ht := toInt_percent impl hp0 hp1
  rw [key, hd, List.map_cons, throttle, hp, if_pos (by linarith [ht.1])]
  exact ⟨_, rfl⟩

theorem truncRat_75_16 : truncRat (75 / 16) = 4 := by
  unfold truncRat
  rw [if_pos (by norm_num), Int.floor_eq_iff]
  constructor <;> norm_num

theorem truncRat_75_8 : truncRat (75 / 8) = 9 := by
  unfold truncRat
  rw [if_pos (by norm_num), Int.floor_eq_iff]
  constructor <;> norm_num

theorem progressOf_3_64 : progressOf 3 64 = Float64.fin (75 / 16) := by
  have h3 : Float64.ofInt 3 = Float64.fin 3 := by
    simpa using ofInt_small 3 (by norm_num)
  have h64 : Float64.ofInt 64 = Float64.fin 64 := by
    simpa using ofInt_small 64 (by norm_num)
  have hq : Float64.ofRat (3 / 64) = Float64.fin (3 / 64) :=
    ofRat_dyadic (3 / 64) 3 (-6) (by norm_num) (by norm_num) (by norm_num) (by norm_num)
  have hp : Float64.ofRat (3 / 64 * 100) = Float64.fin (75 / 16) := by
    have := ofRat_dyadic (3 / 64 * 100) 75 (-4) (by norm_num) (by norm_num) (by norm_num)
      (by norm_num)
    rw [this]; norm_num
  unfold progressOf
  rw [h3, h64]
  simp only [Float64.div]
  rw [if_neg (by norm_num), hq]
  simp only [Float64.mul]
  rw [hp]

theorem progressOf_6_64 : progressOf 6 64 = Float64.fin (75 / 8) := by
  have h6 : Float64.ofInt 6 = Float64.fin 6 := by
    simpa using ofInt_small 6 (by norm_num)
  have h64 : Float64.ofInt 64 = Float64.fin 64 := by
    simpa using ofInt_small 64 (by norm_num)
  have hq : Float64.ofRat (6 / 64) = Float64.fin (3 / 32) := by
    have := ofRat_dyadic (6 / 64) 3 (-5) (by norm_num) (by norm_num) (by norm_num)
      (by norm_num)
    rw [this]; norm_num
  have hp : Float64.ofRat (3 / 32 * 100) = Float64.fin (75 / 8) := by
    have := ofRat_dyadic (3 / 32 * 100) 75 (-3) (by norm_num) (by norm_num) (by norm_num)
      (by norm_num)
    rw [this]; norm_num
  unfold progressOf
  rw [h6, h64]
  simp only [Float64.div]
  rw [if_neg (by norm_num), hq]
  simp only [Float64.mul]
  rw [hp]

/-- C4, witness: two reads of three bytes against a declared total of 64, without limit. -/
theorem throttle_known_total_witness :
    (Float64.fin 0).isPos = false ∧ cleanRun twoReads = true ∧
    (downloadFile implZero (GetResult.response 200 64 twoReads) true
        "http://example.com/a.bin" "" (Float64.fin 0)).renders.map (fun r => r.progress) =
      throttle implZero (-5) ((ticks 0 twoReads).map (fun d => progressOf d 64)) ∧
    ∀ d ds, ticks 0 twoReads = d :: ds →
      ∃ rs, (downloadFile implZero (GetResult.response 200 64 twoReads) true
        "http://example.com/a.bin" "" (Float64.fin 0)).renders.map (fun r => r.progress) =
          progressOf d 64 :: rs :=
  ⟨by simp [Float64.isPos], by decide,
    throttle_known_total implZero 64 twoReads "http://example.com/a.bin" "" (Float64.fin 0)
      (by simp [Float64.isPos]) (by decide) (by norm_num) (by decide)⟩

/-- C4, counterexample: with the total `-1` the first tick prints no line; with the total 64
and two reads of three bytes both ticks print a line, at 4.6875 % and at 9.375 %, which is an
advance of less than 5 points. -/
theorem throttle_counterexample :
    (downloadFile implZero (GetResult.response 200 (-1) [oneBytePass]) true
        "http://example.com/a.bin" "" (Float64.fin 0)).renders = [] ∧
      (downloadFile implZero (GetResult.response 200 64 twoReads) true
        "http://example.com/a.bin" "" (Float64.fin 0)).renders.map (fun r => r.progress) =
        [Float64.fin (75 / 16), Float64.fin (75 / 8)] ∧
      ((75 : ℚ) / 8 - 75 / 16 < 5) := by
  refine ⟨?_, ?_, by norm_num⟩
  · rw [downloadFile_ok]
    simp only []
    have hb : totalBytes [oneBytePass] = 1 := rfl
    exact copyLoop_unknown_renders implZero [oneBytePass]
      ⟨[], 0, -5, [], newLimiter implZero (Float64.fin 0)⟩ rfl (le_refl 0)
      (by rw [hb]; norm_num)
  · have hb : totalBytes twoReads = 6 := rfl
    have key := (copyLoop_known implZero 64 (by norm_num) twoReads
      ⟨[], 0, -5, [], none⟩ rfl (by decide) (le_refl 0)
      (by rw [hb]; norm_num) (le_refl _) (by norm_num)).2.2
    rw [downloadFile_ok, newLimiter_zero]
    simp only [List.map_nil, List.nil_append] at key ⊢
    rw [key]
    have ht : ticks 0 twoReads = [3, 6] := by decide
    have t1 : Float64.toInt implZero (Float64.fin (75 / 16)) = 4 := by
      rw [toInt_of_range implZero (by rw [truncRat_75_16]; norm_num)
        (by rw [truncRat_75_16]; norm_num), truncRat_75_16]
    have t2 : Float64.toInt implZero (Float64.fin (75 / 8)) = 9 := by
      rw [toInt_of_range implZero (by rw [truncRat_75_8]; norm_num)
        (by rw [truncRat_75_8]; norm_num), truncRat_75_8]
    rw [ht]
    simp only [List.map_cons, List.map_nil, progressOf_3_64, progressOf_6_64, throttle, t1, t2]
    norm_num

/-- C5, counterexample: 20 bytes transferred against a total of 10 give the percentage 200,
above 100: the value is not clamped. -/
theorem progressOf_exceeds_hundred :
    progressOf 20 10 = Float64.fin 200 ∧ (100 : ℚ) < 200 :=
  ⟨progressOf_20_10, by norm_num⟩

/-- C5, amended: for a total between 1 and the largest `int64` and a count of bytes between
0 and the total, the percentage `downloadFile` computes, the float64 value of
`float64(downloaded) / float64(contentLength) * 100`, is a finite value between 0 and 100,
and the bar drawn from it has between 0 and 20 filled cells. -/
theorem progress_in_range (impl : Float64 → ℤ) (downloaded contentLength : ℤ)
    (h0 : 0 ≤ downloaded) (h1 : downloaded ≤ contentLength) (h2 : 0 < contentLength)
    (h3 : contentLength < 2 ^ 63) :
    ∃ p : ℚ, progressOf downloaded contentLength = Float64.fin p ∧
      p = roundRat (roundRat (roundRat downloaded / roundRat contentLength) * 100) ∧
      0 ≤ p ∧ p ≤ 100 ∧
      0 ≤ progressBlocksOf impl (progressOf downloaded contentLength) ∧
      progressBlocksOf impl (progressOf downloaded contentLength) ≤ 20 := by
  obtain ⟨p, hp, hpe, hp0, hp1⟩ := progressOf_known downloaded contentLength h0 h1 h2 h3
  have hb := blocks_percent impl hp0 hp1
  exact ⟨p, hp, hpe, hp0, hp1, by rw [hp]; exact hb.1, by rw [hp]; exact hb.2⟩

/-- C5, witness: 3 bytes of 64. -/
theorem progress_in_range_witness :
    ∃ p : ℚ, progressOf 3 64 = Float64.fin p ∧
      p = roundRat (roundRat (roundRat ((3 : ℤ) : ℚ) / roundRat ((64 : ℤ) : ℚ)) * 100) ∧
      0 ≤ p ∧ p ≤ 100 ∧
      0 ≤ progressBlocksOf implZero (progressOf 3 64) ∧
      progressBlocksOf implZero (progressOf 3 64) ≤ 20 :=
  progress_in_range implZero 3 64 (by norm_num) (by norm_num) (by norm_num) (by norm_num)

/-! ### The shallow mirror -/

theorem foldl_set_mem (f : String → String) (l : List String) :
    ∀ (m : RejectMap) (k : String),
      (l.foldl (fun m e => RejectMap.set m (f e)) m) k = true ↔ m k = true ∨ k ∈ l.map f := by
  induction l with
  | nil => intro m k; simp
  | cons e es ih =>
    intro m k
    rw [List.foldl_cons, ih]
    unfold RejectMap.set
    by_cases h : k = f e
    · simp [h]
    · simp [h]

theorem buildRejectMap_spec (rejectTypes k : String) :
    buildRejectMap rejectTypes k = true ↔
      rejectTypes ≠ "" ∧ k ∈ (stringsSplit rejectTypes).map trimSpace := by
  unfold buildRejectMap
  by_cases h : rejectTypes = ""
  · simp [h]
  · rw [if_pos h, foldl_set_mem]
    simp [h]

theorem mirrorLoop_from {U : Type} (lib : Lib U) (w : MirrorWorld) (rejectMap : RejectMap)
    (outputDir : String) (links : List String) :
    ∀ s : MirrorState,
      (links.foldl (mirrorStep lib w rejectMap outputDir) s).skipped =
        s.skipped ++ links.filter (fun l => shouldReject l rejectMap) ∧
      (links.foldl (mirrorStep lib w rejectMap outputDir) s).attempted =
        s.attempted ++ links.filter (fun l => !shouldReject l rejectMap) := by
  induction links with
  | nil => intro s; simp
  | cons l ls ih =>
    intro s
    rw [List.foldl_cons]
    obtain ⟨h1, h2⟩ := ih (mirrorStep lib w rejectMap outputDir s l)
    rw [h1, h2]
    unfold mirrorStep
    by_cases hr : shouldReject l rejectMap = true
    · simp [hr]
    · simp [hr]

/-- C6, counterexample: with `-reject exe` the link `http://example.com/b.exe?x=1`, whose
URL path `/b.exe` has the extension `exe`, is not skipped; with `-reject com` the link
`http://example.com`, whose URL path is empty, is skipped. -/
theorem shouldReject_uses_whole_url :
    shouldReject "http://example.com/b.exe?x=1" (buildRejectMap "exe") = false ∧
      trimDot (filepathExt "/b.exe") = "exe" ∧
      "exe" ∈ (stringsSplit "exe").map trimSpace ∧
      shouldReject "http://example.com" (buildRejectMap "com") = true ∧
      trimDot (filepathExt "") = "" := by
  decide

/-- C6, amended: a link is skipped exactly when the reject string is not empty and one of
its comma-separated entries, trimmed of surrounding white space, is equal to the extension
`filepath.Ext` finds in the link taken as a whole string (the text after the last dot of
what follows the last slash, query and fragment included, without the dot); the skipped
links are the links so rejected and every other link is passed to `downloadAsset`, in order.
With an empty reject string no link is skipped. -/
theorem shouldReject_rule {U : Type} (lib : Lib U) (w : MirrorWorld)
    (rejectTypes outputDir : String) (links : List String) (fs : FS) :
    (∀ link, shouldReject link (buildRejectMap rejectTypes) = true ↔
      rejectTypes ≠ "" ∧
        trimDot (filepathExt link) ∈ (stringsSplit rejectTypes).map trimSpace) ∧
    (mirrorLoop lib w rejectTypes outputDir links fs).skipped =
      links.filter (fun l => shouldReject l (buildRejectMap rejectTypes)) ∧
    (mirrorLoop lib w rejectTypes outputDir links fs).attempted =
      links.filter (fun l => !shouldReject l (buildRejectMap rejectTypes)) ∧
    (mirrorLoop lib w "" outputDir links fs).skipped = [] ∧
    (mirrorLoop lib w "" outputDir links fs).attempted = links := by
  have h := mirrorLoop_from lib w (buildRejectMap rejectTypes) outputDir links ⟨0, fs, [], [], []⟩
  have h0 := mirrorLoop_from lib w (buildRejectMap "") outputDir links ⟨0, fs, [], [], []⟩
  have he : ∀ l, shouldReject l (buildRejectMap "") = false := by
    intro l
    simp [shouldReject, buildRejectMap]
  refine ⟨fun link => buildRejectMap_spec rejectTypes _, ?_, ?_, ?_, ?_⟩
  · simpa [mirrorLoop] using h.1
  · simpa [mirrorLoop] using h.2
  · simpa [mirrorLoop, he] using h0.1
  · simpa [mirrorLoop, he] using h0.2

theorem resolveURL_parsed {U : Type} (lib : Lib U) (baseURL : String) (b : U)
    (hb : lib.parse baseURL = some b) (v : String) :
    resolveURL lib v baseURL =
      some (match lib.parse v with
        | none => ""
        | some u => lib.toString (lib.resolveReference (some b) u)) := by
  unfold resolveURL
  rw [hb]
  cases lib.parse v <;> rfl

theorem extractLinks_from {U : Type} (lib : Lib U) (baseURL : String) (b : U)
    (hb : lib.parse baseURL = some b) (sel : List Element) :
    ∀ acc : List String,
      sel.foldl
        (fun acc s =>
          match acc with
          | none => none
          | some links =>
            let src := match s.attr "href" with
              | some v => some v
              | none => s.attr "src"
            match src with
            | some v => (resolveURL lib v baseURL).map (fun fullURL => links ++ [fullURL])
            | none => some links)
        (some acc) =
      some (acc ++ (sel.filterMap Element.link).map (fun v =>
        match lib.parse v with
        | none => ""
        | some u => lib.toString (lib.resolveReference (some b) u))) := by
  induction sel with
  | nil => intro acc; simp
  | cons e es ih =>
    intro acc
    rw [List.foldl_cons]
    cases h : e.link with
    | none =>
      have h2 : (match e.attr "href" with | some v => some v | none => e.attr "src") = none := h
      conv_lhs => arg 2; simp only [h2]
      rw [ih]
      simp [List.filterMap_cons, h]
    | some v =>
      have h2 : (match e.attr "href" with | some v => some v | none => e.attr "src") = some v := h
      conv_lhs => arg 2; simp only [h2, resolveURL_parsed lib baseURL b hb, Option.map_some']
      rw [ih]
      simp [List.filterMap_cons, h]

theorem extractLinks_parsed {U : Type} (lib : Lib U) (baseURL : String) (b : U)
    (hb : lib.parse baseURL = some b) (doc : Option (List Element)) :
    ∃ links, extractLinks lib doc baseURL = some links := by
  cases doc with
  | none => exact ⟨[], rfl⟩
  | some sel =>
    unfold extractLinks
    exact ⟨_, extractLinks_from lib baseURL b hb sel []⟩

/-- C7, counterexample: on a page with the links `/x`, `:bad` (malformed), `mailto:a@b.c`
and `y.png` and the base `http://example.com/dir/`, `extractLinks` returns four entries, an
empty string for the malformed value and the `mailto` URL among them, where the claim has
the two entries of the well-formed links that are not `mailto`. With the base `:bad`, which
does not parse, the call panics at the first value, `/x`. -/
theorem extractLinks_keeps_every_value :
    extractLinks sampleLib (some samplePage) "http://example.com/dir/" =
      some ["http://example.com/x", "", "mailto:a@b.c", "http://example.com/dir/y.png"] ∧
    wellFormedLinks sampleLib samplePage "http://example.com/dir/" =
      ["http://example.com/x", "http://example.com/dir/y.png"] ∧
    sampleLib.parse ":bad" = none ∧
    resolveURL sampleLib "/x" ":bad" = none ∧
    extractLinks sampleLib (some samplePage) ":bad" = none := by
  decide

/-- C7, amended: for a base URL that parses, `extractLinks` returns, in document order, one
entry for every selected element that has an `href` or (when `href` is absent) a `src`
attribute: the result of `resolveURL` on the value, which is the empty string when the value
does not parse and the resolution against the base otherwise, `mailto` values included; a
malformed value does not stop the extraction, and a document that cannot be read gives no
link. -/
theorem extractLinks_entries {U : Type} (lib : Lib U) (selection : List Element)
    (baseURL : String) (b : U) (hb : lib.parse baseURL = some b) :
    extractLinks lib (some selection) baseURL =
      some ((selection.filterMap Element.link).map (fun v =>
        match lib.parse v with
        | none => ""
        | some u => lib.toString (lib.resolveReference (some b) u))) ∧
    (∀ v, lib.parse v = none → resolveURL lib v baseURL = some "") ∧
    (∀ v u, lib.parse v = some u →
      resolveURL lib v baseURL = some (lib.toString (lib.resolveReference (some b) u))) ∧
    extractLinks lib none baseURL = some [] := by
  refine ⟨?_, ?_, ?_, rfl⟩
  · unfold extractLinks
    exact (extractLinks_from lib baseURL b hb selection []).trans (by simp)
  · intro v h
    rw [resolveURL_parsed lib baseURL b hb, h]
  · intro v u h
    rw [resolveURL_parsed lib baseURL b hb, h]

/-- C7, witness: the sample page against the base `http://example.com/dir/`. -/
theorem extractLinks_entries_witness :
    sampleLib.parse "http://example.com/dir/" = some ⟨"http", "example.com", "/dir/", ""⟩ ∧
    extractLinks sampleLib (some samplePage) "http://example.com/dir/" =
      some ((samplePage.filterMap Element.link).map (fun v =>
        match sampleLib.parse v with
        | none => ""
        | some u => sampleLib.toString
            (sampleLib.resolveReference (some ⟨"http", "example.com", "/dir/", ""⟩) u))) ∧
    (∀ v, sampleLib.parse v = none →
      resolveURL sampleLib v "http://example.com/dir/" = some "") ∧
    (∀ v u, sampleLib.parse v = some u →
      resolveURL sampleLib v "http://example.com/dir/" =
        some (sampleLib.toString
          (sampleLib.resolveReference (some ⟨"http", "example.com", "/dir/", ""⟩) u))) ∧
    extractLinks sampleLib none "http://example.com/dir/" = some [] :=
  ⟨rfl, extractLinks_entries sampleLib samplePage "http://example.com/dir/"
    ⟨"http", "example.com", "/dir/", ""⟩ rfl⟩

theorem fetchHTML_httpGet {U : Type} (lib : Lib U) (url : String) (page : PageFetch)
    (html : Bytes) (h : fetchHTML (httpGet lib url page) = some html) :
    ∃ b, lib.parse url = some b := by
  unfold httpGet at h
  cases hp : lib.parse url with
  | none => rw [hp] at h; simp [fetchHTML] at h
  | some b => exact ⟨b, rfl⟩

/-- C8: `mirrorWebsite` returns an error exactly when the page fetch fails or the write of
`index.html` fails. After a successful fetch `extractLinks` returns its list and, whatever
the downloads of the assets return, every link that is not rejected is passed to
`downloadAsset`; when the write succeeds the result is success and `index.html` in the
output directory holds the fetched markup. -/
theorem mirrorWebsite_result {U : Type} (lib : Lib U) (w : MirrorWorld)
    (url rejectTypes acceptType : String) (recursive : Bool) (fs : FS) :
    ((mirrorWebsite lib w url rejectTypes acceptType recursive fs).isError = true ↔
      fetchHTML (httpGet lib url w.page) = none ∨ w.writeIndexOk = false) ∧
    ∀ htmlContent, fetchHTML (httpGet lib url w.page) = some htmlContent →
      ∃ links, extractLinks lib (w.find htmlContent) url = some links ∧
      (∀ s, (mirrorWebsite lib w url rejectTypes acceptType recursive fs).state = some s →
        s.attempted =
          links.filter (fun l => !shouldReject l (buildRejectMap rejectTypes))) ∧
      ((mirrorWebsite lib w url rejectTypes acceptType recursive fs).state = none → False) ∧
      (w.writeIndexOk = true →
        ∃ s, mirrorWebsite lib w url rejectTypes acceptType recursive fs =
            MirrorResult.success s ∧
          s.fs (lib.join (extractDomain lib url ++ "_mirror") "index.html") =
            some htmlContent) := by
  constructor
  · unfold mirrorWebsite
    cases hf : fetchHTML (httpGet lib url w.page) with
    | none => simp [MirrorResult.isError]
    | some html =>
      obtain ⟨b, hb⟩ := fetchHTML_httpGet lib url w.page html hf
      obtain ⟨links, hl⟩ := extractLinks_parsed lib url b hb (w.find html)
      simp only [hl]
      cases hw : w.writeIndexOk <;> simp [MirrorResult.isError]
  · intro html hf
    obtain ⟨b, hb⟩ := fetchHTML_httpGet lib url w.page html hf
    obtain ⟨links, hl⟩ := extractLinks_parsed lib url b hb (w.find html)
    have hatt : (mirrorLoop lib w rejectTypes (extractDomain lib url ++ "_mirror")
        links fs).attempted =
        links.filter (fun l => !shouldReject l (buildRejectMap rejectTypes)) := by
      have := (mirrorLoop_from lib w (buildRejectMap rejectTypes)
        (extractDomain lib url ++ "_mirror") links ⟨0, fs, [], [], []⟩).2
      simpa [mirrorLoop] using this
    refine ⟨links, hl, ?_, ?_, ?_⟩
    · intro s hs
      unfold mirrorWebsite at hs
      rw [hf] at hs
      simp only [hl] at hs
      cases hw : w.writeIndexOk
      · rw [hw] at hs
        simp [MirrorResult.state] at hs
        rw [← hs]
        exact hatt
      · rw [hw] at hs
        simp [MirrorResult.state] at hs
        rw [← hs]
        exact hatt
    · intro hs
      unfold mirrorWebsite at hs
      rw [hf] at hs
      simp only [hl] at hs
      cases hw : w.writeIndexOk <;> (rw [hw] at hs; simp [MirrorResult.state] at hs)
    · intro hw
      unfold mirrorWebsite
      rw [hf]
      simp only [hl, hw]
      refine ⟨_, rfl, ?_⟩
      simp [FS.write]

/-! ### The link rewriter -/

/-- The change one pass of the attribute loop makes to the attribute it visits. -/
theorem attrPass_getElem? {U : Type} (lib : Lib U) (base : U) (key : String)
    (attrs : List Attribute) (i j : ℕ) :
    (attrPass lib base key attrs i)[j]? =
      if j = i then
        attrs[j]?.map (fun a =>
          if a.key = key then
            match relativeValue lib base a.val with
            | some relPath => { a with val := relPath }
            | none => a
          else a)
      else attrs[j]? := by
  unfold attrPass
  cases h : attrs[i]? with
  | none =>
    by_cases hj : j = i
    · subst hj; simp [h]
    · simp [hj]
  | some a =>
    have hi : i < attrs.length := by
      by_contra hc
      rw [List.getElem?_eq_none (not_lt.1 hc)] at h
      exact absurd h (by simp)
    simp only []
    by_cases hk : a.key = key
    · rw [if_pos hk]
      cases hr : relativeValue lib base a.val with
      | none =>
        by_cases hj : j = i
        · subst hj; simp [h, hk, hr]
        · simp [hj]
      | some r =>
        simp only []
        rw [List.getElem?_set]
        by_cases hj : j = i
        · subst hj; simp [h, hk, hr, hi]
        · have : ¬ (i = j) := fun e => hj e.symm
          simp [hj, this]
    · rw [if_neg hk]
      by_cases hj : j = i
      · subst hj; simp [h, hk]
      · simp [hj]

theorem attrFold_getElem? {U : Type} (lib : Lib U) (base : U) (key : String)
    (attrs : List Attribute) (n j : ℕ) :
    ((List.range n).foldl (attrPass lib base key) attrs)[j]? =
      if j < n then
        attrs[j]?.map (fun a =>
          if a.key = key then
            match relativeValue lib base a.val with
            | some relPath => { a with val := relPath }
            | none => a
          else a)
      else attrs[j]? := by
  induction n with
  | zero => simp
  | succ n ih =>
    rw [List.range_succ, List.foldl_append, List.foldl_cons, List.foldl_nil,
      attrPass_getElem?, ih]
    by_cases h1 : j = n
    · subst h1; simp
    · by_cases h2 : j < n
      · have : j < n + 1 := by omega
        simp [h1, h2, this]
      · have : ¬ (j < n + 1) := by omega
        simp [h1, h2, this]

/-- The loop over the attributes for one name is a map over the attributes. -/
theorem attrLoop_eq_map {U : Type} (lib : Lib U) (base : U) (attrs : List Attribute)
    (key : String) :
    attrLoop lib base attrs key =
      attrs.map (fun a =>
        if a.key = key then
          match relativeValue lib base a.val with
          | some relPath => { a with val := relPath }
          | none => a
        else a) := by
  apply List.ext_getElem?
  intro j
  unfold attrLoop
  rw [attrFold_getElem?, List.getElem?_map]
  by_cases h : j < attrs.length
  · simp [h]
  · simp [h, List.getElem?_eq_none (not_lt.1 h)]

theorem rewriteAttrs_eq_map {U : Type} (lib : Lib U) (base : U) (attrs : List Attribute) :
    rewriteAttrs lib base attrs = attrs.map (rewriteAttr lib base) := by
  unfold rewriteAttrs
  simp only [List.foldl_cons, List.foldl_nil]
  rw [attrLoop_eq_map, attrLoop_eq_map, List.map_map]
  apply List.map_congr_left
  intro a _
  simp only [Function.comp, rewriteAttr]
  by_cases h1 : a.key = "href"
  · have h2 : ¬ (a.key = "src") := by rw [h1]; decide
    cases hr : relativeValue lib base a.val with
    | none => simp [h1, hr]
    | some r => simp [h1, hr]
  · by_cases h2 : a.key = "src"
    · cases hr : relativeValue lib base a.val with
      | none => simp [h1, h2, hr]
      | some r => simp [h1, h2, hr]
    · simp [h1, h2]

theorem traverse_eq_rewriteTree {U : Type} (lib : Lib U) (base : U) (n : Node) :
    traverse lib base n = rewriteTree lib base n :=
  @Node.rec (fun n => traverse lib base n = rewriteTree lib base n)
    (fun cs => traverseChildren lib base cs = rewriteForest lib base cs)
    (fun type data attr children ih => by
      show traverse lib base (Node.mk type data attr children) =
        rewriteTree lib base (Node.mk type data attr children)
      rw [traverse, rewriteTree, rewriteAttrs_eq_map, ih])
    (by
      show traverseChildren lib base [] = rewriteForest lib base []
      rw [traverseChildren, rewriteForest])
    (fun c cs ihc ihcs => by
      show traverseChildren lib base (c :: cs) = rewriteForest lib base (c :: cs)
      rw [traverseChildren, rewriteForest, ihc, ihcs])
    n

theorem sample_traverse : traverse sampleLib sampleBase sampleDoc = sampleDocRewritten := by
  rw [traverse_eq_rewriteTree]
  simp [sampleDoc, sampleDocRewritten, rewriteTree, rewriteForest, rewriteAttr, relativeValue,
    sampleLib, sampleParse, sampleBase, sampleResolve, sampleRel]

/-! ### The traversal and `main` -/

theorem relativeValue_some {U : Type} (lib : Lib U) (base : U) (v r : String) :
    relativeValue lib base v = some r ↔
      ∃ u, lib.parse v = some u ∧ lib.scheme u ≠ "mailto" ∧
        lib.rel (lib.path base) (lib.path (lib.resolveReference (some base) u)) = some r := by
  unfold relativeValue
  cases h : lib.parse v with
  | none => simp
  | some u =>
    by_cases hm : lib.scheme u = "mailto"
    · simp [hm]
    · simp [hm]

theorem local_traverse : traverse sampleLib localBase localDoc = localDocRewritten := by
  rw [traverse_eq_rewriteTree]
  simp [localDoc, localDocRewritten, rewriteTree, rewriteForest, rewriteAttr, relativeValue,
    sampleLib, sampleParse, localBase, sampleResolve, sampleRel]

/-- C9, failing input: `convertLinksFunction("downloaded_page.html")`, the call `main` makes,
on a file that holds `<img src="/x">` and `<a href="http://example.com/page">`. The
directory of the file is `.`, and the base parsed from `file://./` has the host `.` and the
path `/`: the values are made relative to the root, not to the directory of the file. The
rooted source `/x` is written back as `x` (and the link as `page`), where no path relative
to the directory `.` exists for `/x` and the value would stay. -/
theorem convertLinks_local_file :
    sampleLib.dir "downloaded_page.html" = "." ∧
    fileBase sampleLib "downloaded_page.html" = some localBase ∧
    sampleLib.path localBase = "/" ∧
    traverse sampleLib localBase localDoc = localDocRewritten ∧
    relativeValue sampleLib localBase "/x" = some "x" ∧
    directoryRelative sampleLib "downloaded_page.html" localBase "/x" = none ∧
    (∀ (w : RewriteWorld) (fs : FS) (content buf : Bytes),
      w.opened = some content → w.parseHTML content = some localDoc →
      w.render localDocRewritten = some buf → w.writeOk = true →
      convertLinksFunction sampleLib w "downloaded_page.html" fs =
        (true, fs.write "downloaded_page.html" buf)) := by
  refine ⟨by decide, by decide, by decide, local_traverse, by decide, by decide, ?_⟩
  intro w fs content buf ho hp hr hw
  have hb : fileBase sampleLib "downloaded_page.html" = some localBase := by decide
  unfold convertLinksFunction
  rw [ho]
  simp only [hp, hb, local_traverse, hr, hw]
  rfl

/-- Extra: for every base, the traversal of `convertLinksFunction` leaves the tree as it was
except for the values of the `href` and `src` attributes of element nodes: such a value is
replaced by the path of its resolution against the base, relative to the path of the base,
when the value parses, does not have the scheme `mailto` and `filepath.Rel` succeeds, and
stays as it was otherwise; keys, namespaces, other attributes, other nodes and the shape of
the tree are unchanged. With the base `file:///site/` of the file `/site/index.html`, the
link `http://example.com/page` of the sample document becomes `../page`. -/
theorem traverse_rewrites_links {U : Type} (lib : Lib U) (base : U) (n : Node) :
    traverse lib base n = rewriteTree lib base n ∧
    (∀ v r, relativeValue lib base v = some r ↔
      ∃ u, lib.parse v = some u ∧ lib.scheme u ≠ "mailto" ∧
        lib.rel (lib.path base) (lib.path (lib.resolveReference (some base) u)) = some r) ∧
    (∀ a : Attribute, (rewriteAttr lib base a).key = a.key ∧
      (rewriteAttr lib base a).ns = a.ns) ∧
    (∀ a : Attribute, a.key ≠ "href" → a.key ≠ "src" → rewriteAttr lib base a = a) ∧
    (∀ a : Attribute, relativeValue lib base a.val = none → rewriteAttr lib base a = a) ∧
    (∀ (a : Attribute) (r : String), a.key = "href" ∨ a.key = "src" →
      relativeValue lib base a.val = some r → rewriteAttr lib base a = { a with val := r }) ∧
    traverse sampleLib sampleBase sampleDoc = sampleDocRewritten := by
  refine ⟨traverse_eq_rewriteTree lib base n, relativeValue_some lib base, ?_, ?_, ?_, ?_,
    sample_traverse⟩
  · intro a
    unfold rewriteAttr
    split_ifs
    · cases relativeValue lib base a.val <;> exact ⟨rfl, rfl⟩
    · exact ⟨rfl, rfl⟩
  · intro a h1 h2
    simp [rewriteAttr, h1, h2]
  · intro a h
    simp [rewriteAttr, h]
  · intro a r hk h
    simp [rewriteAttr, hk, h]

theorem downloadFile_sample (url outputPath : String) :
    (downloadFile implZero (GetResult.response 200 3 sampleBody) true url outputPath
        (Float64.fin 0)).outcome = Outcome.success ∧
      (downloadFile implZero (GetResult.response 200 3 sampleBody) true url outputPath
        (Float64.fin 0)).file = [1, 2, 3] ∧
      (downloadFile implZero (GetResult.response 200 3 sampleBody) true url outputPath
        (Float64.fin 0)).path = some (if outputPath = "" then pathBase url else outputPath) := by
  have hb : totalBytes sampleBody = 3 := rfl
  have key := copyLoop_known implZero 3 (by norm_num) sampleBody
    ⟨[], 0, -5, [], none⟩ rfl (by decide) (le_refl 0)
    (by rw [hb]; norm_num) (le_refl _) (by norm_num)
  rw [downloadFile_ok, newLimiter_zero]
  simp only []
  exact ⟨key.1, by simpa using key.2.1, trivial⟩

theorem flags_redefined : (init []).bind mainFlags = none := by decide

/-- C10, failing input: the command line `go-wget -O out.bin http://example.com/a.bin`, every
request answered with three bytes. `init` has defined the flag `mirror`, and the first
statement of `main` defines it again: `main` panics before `flag.Parse`, as it does on every
command line. The run ends with status 2, without a request and without a file. From
`flag.Parse` on, the same command line would make two requests and write two files:
`a.bin`, named from the URL by the first call of `downloadFile`, and `out.bin`, the save
path, by the second; for every direct download without `-P` that part of `main` is the
rewrite of `downloaded_page.html` followed by these two calls of `downloadFile`. -/
theorem main_panics_at_flags :
    (init []).bind mainFlags = none ∧
    (∀ (σ : Type) (c : Calls σ) (a : Args) (w : σ), main c a w = (2, w)) ∧
    (main sampleCalls sampleArgs ⟨fun _ => none, 0⟩).1 = 2 ∧
    (main sampleCalls sampleArgs ⟨fun _ => none, 0⟩).2.requests = 0 ∧
    (main sampleCalls sampleArgs ⟨fun _ => none, 0⟩).2.fs "out.bin" = none ∧
    (mainParsed sampleCalls sampleArgs ⟨fun _ => none, 0⟩).1 = 0 ∧
    (mainParsed sampleCalls sampleArgs ⟨fun _ => none, 0⟩).2.requests = 2 ∧
    (mainParsed sampleCalls sampleArgs ⟨fun _ => none, 0⟩).2.fs "a.bin" = some [1, 2, 3] ∧
    (mainParsed sampleCalls sampleArgs ⟨fun _ => none, 0⟩).2.fs "out.bin" = some [1, 2, 3] ∧
    ∀ (σ : Type) (c : Calls σ) (a : Args) (w : σ) (url : String),
      a.mirrorFlag = false → a.convertLinks = false → a.positional = [url] →
      a.outputDir = "" →
      mainParsed c a w =
        (if (c.downloadFile url "" a.speedLimit
              (c.convertLinksFunction "downloaded_page.html" w).2).1 = false then
          (1, (c.downloadFile url "" a.speedLimit
              (c.convertLinksFunction "downloaded_page.html" w).2).2)
        else if (c.downloadFile url (if a.outputFile = "" then pathBase url else a.outputFile)
              a.speedLimit
              (c.downloadFile url "" a.speedLimit
                (c.convertLinksFunction "downloaded_page.html" w).2).2).1 = false then
          (1, (c.downloadFile url (if a.outputFile = "" then pathBase url else a.outputFile)
              a.speedLimit
              (c.downloadFile url "" a.speedLimit
                (c.convertLinksFunction "downloaded_page.html" w).2).2).2)
        else
          (0, (c.downloadFile url (if a.outputFile = "" then pathBase url else a.outputFile)
              a.speedLimit
              (c.downloadFile url "" a.speedLimit
                (c.convertLinksFunction "downloaded_page.html" w).2).2).2)) := by
  have hbase : pathBase "http://example.com/a.bin" = "a.bin" := by decide
  have h1 := downloadFile_sample "http://example.com/a.bin" ""
  have h2 := downloadFile_sample "http://example.com/a.bin" "out.bin"
  have hp : ∀ (σ : Type) (c : Calls σ) (a : Args) (w : σ), main c a w = (2, w) := by
    intro σ c a w
    unfold main
    rw [flags_redefined]
  have hm : mainParsed sampleCalls sampleArgs ⟨fun _ => none, 0⟩ =
      (0, ⟨FS.write (FS.write (fun _ => none) "a.bin" [1, 2, 3]) "out.bin" [1, 2, 3], 2⟩) := by
    simp [mainParsed, mainDownload, mainSave, sampleArgs, sampleCalls, convertLinksFunction,
      h1.1, h1.2.1, h1.2.2, h2.1, h2.2.1, h2.2.2, hbase]
  refine ⟨flags_redefined, hp, by rw [hp], by rw [hp], by rw [hp], by rw [hm], by rw [hm],
    by rw [hm]; decide, by rw [hm]; decide, ?_⟩
  intro σ c a w url hmf hcl hp hd
  simp [mainParsed, mainDownload, mainSave, hmf, hcl, hp, hd]

/-! ### Downloads without limiter, and errors -/

/-- Extra: without speed limit (`speedLimit > 0` is false), when the body is delivered
cleanly (a finite sequence of reads that ends in end-of-stream, the last read possibly
returning bytes with it, every write succeeding) and the declared length is `-1`, with fewer
than `2 ^ 53` bytes delivered, or is not smaller than the number of bytes delivered,
`downloadFile` returns success, the file it created at the output path (the last element of
the URL when no path is given) holds the bytes read, in order, and as many bytes as were
delivered. -/
theorem downloadFile_delivers (impl : Float64 → ℤ) (cl : ℤ) (script : List Iteration)
    (url outputPath : String) (speedLimit : Float64) (hs : speedLimit.isPos = false)
    (hc : cleanRun script = true)
    (h : (cl = -1 ∧ totalBytes script < 2 ^ 53) ∨
      (cl < 2 ^ 63 ∧ (totalBytes script : ℤ) ≤ cl)) :
    (downloadFile impl (GetResult.response 200 cl script) true url outputPath
        speedLimit).outcome = Outcome.success ∧
      (downloadFile impl (GetResult.response 200 cl script) true url outputPath
        speedLimit).file = delivered script ∧
      (downloadFile impl (GetResult.response 200 cl script) true url outputPath
        speedLimit).file.length = totalBytes script ∧
      (downloadFile impl (GetResult.response 200 cl script) true url outputPath
        speedLimit).path = some (if outputPath = "" then pathBase url else outputPath) := by
  have key := downloadFile_clean impl cl script url outputPath speedLimit hs hc h
  refine ⟨key.1, key.2.1, ?_, key.2.2⟩
  rw [key.2.1]
  exact delivered_length script

/-- Extra, witness: two reads of three bytes against a declared length of 64, without
limit. -/
theorem downloadFile_delivers_witness :
    (Float64.fin 0).isPos = false ∧ cleanRun twoReads = true ∧
    (downloadFile implZero (GetResult.response 200 64 twoReads) true
        "http://example.com/a.bin" "" (Float64.fin 0)).outcome = Outcome.success ∧
      (downloadFile implZero (GetResult.response 200 64 twoReads) true
        "http://example.com/a.bin" "" (Float64.fin 0)).file = delivered twoReads ∧
      (downloadFile implZero (GetResult.response 200 64 twoReads) true
        "http://example.com/a.bin" "" (Float64.fin 0)).file.length = totalBytes twoReads ∧
      (downloadFile implZero (GetResult.response 200 64 twoReads) true
        "http://example.com/a.bin" "" (Float64.fin 0)).path =
        some (if "" = "" then pathBase "http://example.com/a.bin" else "") :=
  ⟨by simp [Float64.isPos], by decide,
    downloadFile_delivers implZero 64 twoReads "http://example.com/a.bin" "" (Float64.fin 0)
      (by simp [Float64.isPos]) (by decide) (Or.inr ⟨by norm_num, by decide⟩)⟩

/-- Extra: `downloadFile` creates no file when the request fails, when the status is not 200
(another 2xx status included) or when the file cannot be created; without limiter, a write
that fails ends the loop with a write error, the file holding what was written before and
the bytes the failed write got through, and a read that returns no byte and an error other
than end-of-stream ends it with a read error; in both cases the rest of the body is not
read. -/
theorem downloadFile_errors (impl : Float64 → ℤ) (url outputPath : String)
    (speedLimit : Float64) :
    (downloadFile impl GetResult.error true url outputPath speedLimit).outcome =
        Outcome.requestError ∧
      (downloadFile impl GetResult.error true url outputPath speedLimit).path = none ∧
    (∀ status cl body createOk, status ≠ 200 →
      (downloadFile impl (GetResult.response status cl body) createOk url outputPath
          speedLimit).outcome = Outcome.statusError ∧
        (downloadFile impl (GetResult.response status cl body) createOk url outputPath
          speedLimit).path = none) ∧
    (∀ cl body,
      (downloadFile impl (GetResult.response 200 cl body) false url outputPath
          speedLimit).outcome = Outcome.createError ∧
        (downloadFile impl (GetResult.response 200 cl body) false url outputPath
          speedLimit).path = none) ∧
    (∀ cl it rest s k, s.limiter = none → 0 < it.read.n → it.read.n ≤ bufferSize →
      it.write = WriteResult.fail k →
      (copyLoop impl cl (it :: rest) s).1 = Outcome.writeError ∧
        (copyLoop impl cl (it :: rest) s).2.file = s.file ++ it.read.data.take k) ∧
    (∀ cl it rest s, s.limiter = none → it.read.n = 0 → it.read.err = ReadErr.other →
      (copyLoop impl cl (it :: rest) s).1 = Outcome.readError ∧
        (copyLoop impl cl (it :: rest) s).2.file = s.file) := by
  refine ⟨rfl, rfl, ?_, ?_, ?_, ?_⟩
  · intro status cl body createOk hs
    simp [downloadFile, hs]
  · intro cl body
    simp [downloadFile]
  · intro cl it rest s k hl h1 h2 hw
    rw [copyLoop]
    unfold loopBody
    rw [readerRead_none it.read s hl]
    simp only []
    rw [if_neg (not_lt.2 h2), if_pos h1, hw]
    simp only [and_self]
  · intro cl it rest s hl hn he
    rw [copyLoop, loopBody_empty impl cl it s (readerRead_none it.read s hl) hn, he]
    simp only [endOfPass, and_self]

/-! ### A mirror run -/

/-- Extra: the mirror of a page at `http://example.com/` that references `a.png` and `b.exe`,
with `-reject exe`: the run succeeds, `b.exe` is skipped and `a.png` is downloaded, and the
output directory `example.com_mirror` holds `a.png`, no `b.exe`, and an `index.html` equal
to the fetched markup. -/
theorem mirror_example :
    (mirrorWebsite sampleLib sampleMirror "http://example.com/" "exe" "" false
        (fun _ => none)).isError = false ∧
      (mirrorWebsite sampleLib sampleMirror "http://example.com/" "exe" "" false
        (fun _ => none)).state.map (fun s => (s.skipped, s.attempted, s.failed,
          s.fs "example.com_mirror/a.png", s.fs "example.com_mirror/b.exe",
          s.fs "example.com_mirror/index.html")) =
        some (["http://example.com/b.exe"], ["http://example.com/a.png"], [],
          some [1, 2, 3], none, some sampleMarkup) :=
  ⟨by decide, by rfl⟩

end GoWget
